import Mathlib

/-!
Verification development for the `laravel-like-vue-validator` mixin
(`src/Validator.js`).  The JavaScript source is shallowly embedded: the
Vue instance's mutable fields (`errors`, `validator_.vars`,
`validator_.errMsg`, the scratch fields `value`, `path`, `root`, `key`,
`count`, `isArray`, `arraySize`, `arrayIndex`) become a Lean state
record, every method becomes a state-passing function, and a thrown JS
string becomes the error branch of a result type that also carries the
state at throw time.

Modeling conventions, stated once here:
* JS values are the inductive `JSVal`; a number is an exact scaled
  decimal `m / 10^e` (IEEE float rounding plays no role in any claim,
  and every number the code builds comes from a decimal literal or a
  length), `typeof null` is `object` as in JS, and property order of
  objects is insertion order, matching `for ... in` iteration for the
  non-numeric keys this code uses.
* Vue path access (`$get`/`$set`) never throws and creates missing
  intermediate objects (`jsGetPath` / `jsSetPath`); raw JS indexing
  (`value[k]`) throws a TypeError on `undefined`/`null` (`jsIndexE`).
* `JSON.parse(JSON.stringify(e))` is `jsonRT`: it drops `undefined`
  object fields and turns `undefined` array slots into `null`.  Object
  identity / aliasing is not tracked: the code re-serialises `errors`
  after every per-index write, so error slots behave as independent
  values at every observation point used below.
* The JS regular-expression engine is not reproduced: every match test
  is delegated to an arbitrary fixed oracle `rx` over which all
  theorems are universally quantified; witnesses instantiate it with a
  trivial oracle, and no claim depends on a match outcome.
* `parseInt` / `parseFloat` / `split` / `toString` are modeled on
  decimal input by char-level functions; none of the claims involve
  exponents or hex input.
-/

namespace LLVValidator

/-- A single apostrophe character, used to rebuild the exact JS error
message strings. -/
def qt : String := String.singleton (Char.ofNat 39)

/-- Model of a JavaScript runtime value.  A number `num m e` denotes
the exact decimal `m / 10^e`. -/
inductive JSVal where
  | undef
  | null
  | bool (b : Bool)
  | num (m : Int) (e : Nat)
  | str (s : String)
  | arr (elems : List JSVal)
  | obj (fields : List (String × JSVal))
deriving Repr

mutual

/-- Boolean structural equality on `JSVal` (used only to decide
propositional equality of model values; JS `===` on numbers is the
separate value comparison `numsEq`). -/
def jsEqb : JSVal → JSVal → Bool
  | .undef, .undef => true
  | .null, .null => true
  | .bool a, .bool b => a == b
  | .num a ea, .num b eb => a == b && ea == eb
  | .str a, .str b => a == b
  | .arr a, .arr b => jsEqbListA a b
  | .obj a, .obj b => jsEqbListF a b
  | _, _ => false
termination_by structural v => v

def jsEqbListA : List JSVal → List JSVal → Bool
  | [], [] => true
  | x :: xs, y :: ys => jsEqb x y && jsEqbListA xs ys
  | _, _ => false
termination_by structural l => l

def jsEqbListF : List (String × JSVal) → List (String × JSVal) → Bool
  | [], [] => true
  | (k, x) :: xs, (l, y) :: ys => k == l && jsEqb x y && jsEqbListF xs ys
  | _, _ => false
termination_by structural l => l

end

mutual

def jsEqb_eq : ∀ {a b : JSVal}, jsEqb a b = true → a = b
  | .undef, .undef, _ => rfl
  | .null, .null, _ => rfl
  | .bool _, .bool _, h => by
      simp only [jsEqb, beq_iff_eq] at h; rw [h]
  | .num _ _, .num _ _, h => by
      simp only [jsEqb, Bool.and_eq_true, beq_iff_eq] at h; rw [h.1, h.2]
  | .str _, .str _, h => by
      simp only [jsEqb, beq_iff_eq] at h; rw [h]
  | .arr a, .arr b, h => by
      simp only [jsEqb] at h
      rw [jsEqbListA_eq h]
  | .obj a, .obj b, h => by
      simp only [jsEqb] at h
      rw [jsEqbListF_eq h]

def jsEqbListA_eq : ∀ {a b : List JSVal}, jsEqbListA a b = true → a = b
  | [], [], _ => rfl
  | x :: xs, y :: ys, h => by
      simp only [jsEqbListA, Bool.and_eq_true] at h
      rw [jsEqb_eq h.1, jsEqbListA_eq h.2]

def jsEqbListF_eq : ∀ {a b : List (String × JSVal)},
    jsEqbListF a b = true → a = b
  | [], [], _ => rfl
  | (k, x) :: xs, (l, y) :: ys, h => by
      simp only [jsEqbListF, Bool.and_eq_true, beq_iff_eq] at h
      rw [h.1.1, jsEqb_eq h.1.2, jsEqbListF_eq h.2]

end

mutual

def jsEqb_rfl : ∀ (a : JSVal), jsEqb a a = true
  | .undef => rfl
  | .null => rfl
  | .bool _ => by simp [jsEqb]
  | .num _ _ => by simp [jsEqb]
  | .str _ => by simp [jsEqb]
  | .arr a => by simp only [jsEqb]; exact jsEqbListA_rfl a
  | .obj a => by simp only [jsEqb]; exact jsEqbListF_rfl a

def jsEqbListA_rfl : ∀ (a : List JSVal), jsEqbListA a a = true
  | [] => rfl
  | x :: xs => by
      simp only [jsEqbListA, Bool.and_eq_true]
      exact ⟨jsEqb_rfl x, jsEqbListA_rfl xs⟩

def jsEqbListF_rfl : ∀ (a : List (String × JSVal)), jsEqbListF a a = true
  | [] => rfl
  | (k, x) :: xs => by
      simp only [jsEqbListF, Bool.and_eq_true]
      exact ⟨⟨by simp, jsEqb_rfl x⟩, jsEqbListF_rfl xs⟩

end

instance : DecidableEq JSVal := fun a b =>
  if h : jsEqb a b = true then .isTrue (jsEqb_eq h)
  else .isFalse fun he => h (he ▸ jsEqb_rfl a)

namespace JSVal

/-- `typeof v === 'object'` (true for arrays, plain objects and `null`). -/
def typeofObject : JSVal → Bool
  | .null | .arr _ | .obj _ => true
  | _ => false

/-- JS truthiness. -/
def truthy : JSVal → Bool
  | .undef | .null => false
  | .bool b => b
  | .num m _ => m != 0
  | .str s => s != ""
  | .arr _ | .obj _ => true

end JSVal

/-- Value equality of two scaled decimals (`a/10^ea == b/10^eb`). -/
def numsEq (a : Int × Nat) (b : Int × Nat) : Bool :=
  a.1 * 10 ^ b.2 == b.1 * 10 ^ a.2

/-- `≤` of two scaled decimals. -/
def numsLE (a : Int × Nat) (b : Int × Nat) : Bool :=
  a.1 * 10 ^ b.2 ≤ b.1 * 10 ^ a.2

/-- `<` of two scaled decimals. -/
def numsLT (a : Int × Nat) (b : Int × Nat) : Bool :=
  a.1 * 10 ^ b.2 < b.1 * 10 ^ a.2

/-- JS `String.prototype.split` with a one-character separator. -/
def jsSplitAux (sep : Char) : List Char → List Char → List String
  | [], acc => [String.mk acc.reverse]
  | c :: rest, acc =>
      if c = sep then String.mk acc.reverse :: jsSplitAux sep rest []
      else jsSplitAux sep rest (c :: acc)

/-- `s.split(sep)` (never empty; splitting the empty string yields
`[""]`, as in JS). -/
def jsSplit (s : String) (sep : Char) : List String :=
  jsSplitAux sep s.toList []

/-- JS `Array.prototype.join('.')`. -/
def jsJoin (sep : String) : List String → String
  | [] => ""
  | [x] => x
  | x :: rest => x ++ sep ++ jsJoin sep rest

/-- Read a property of an object field list (first binding wins;
missing property is `undefined`). -/
def objGet (fields : List (String × JSVal)) (k : String) : JSVal :=
  match fields.find? (fun p => p.1 == k) with
  | some p => p.2
  | none => JSVal.undef

/-- Write a property of an object field list: an existing binding is
updated in place (insertion order kept), a new one is appended. -/
def objSet (fields : List (String × JSVal)) (k : String) (v : JSVal) :
    List (String × JSVal) :=
  match fields with
  | [] => [(k, v)]
  | (k', v') :: rest =>
      if k' = k then (k', v) :: rest else (k', v') :: objSet rest k v

/-- Array element read `a[i]`: out-of-range is `undefined`. -/
def arrGet (elems : List JSVal) (i : Int) : JSVal :=
  if h : 0 ≤ i ∧ i.toNat < elems.length then elems.get ⟨i.toNat, h.2⟩
  else JSVal.undef

/-- Vue's `array.$set(i, v)`: extends the array with `undefined` holes
up to `i` if needed, then replaces slot `i`. -/
def arrSet (elems : List JSVal) (i : Nat) (v : JSVal) : List JSVal :=
  let padded := if elems.length ≤ i
    then elems ++ List.replicate (i + 1 - elems.length) .undef
    else elems
  padded.set i v

/-- Reads the longest digit run at the head of the list; returns its
value, its length and the remainder. -/
def takeDigitsAux : List Char → Nat → Nat × Nat × List Char
  | [], acc => (acc, 0, [])
  | c :: rest, acc =>
      if c.isDigit then
        let (v, n, rem) := takeDigitsAux rest (acc * 10 + (c.toNat - 48))
        (v, n + 1, rem)
      else (acc, 0, c :: rest)

/-- Longest digit prefix of a character list. -/
def takeDigits (cs : List Char) : Nat × Nat × List Char := takeDigitsAux cs 0

/-- Decimal-numeral test used by raw JS property access on arrays
(`a['2']` hits index 2). -/
def segToIndex (k : String) : Option Nat :=
  if k ≠ "" ∧ k.toList.all Char.isDigit then some (takeDigits k.toList).1 else none

/-- Vue's `$get` path walk: total, yields `undefined` on any missing or
non-indexable step. -/
def jsGetPath : JSVal → List String → JSVal
  | v, [] => v
  | .obj fields, k :: rest => jsGetPath (objGet fields k) rest
  | .arr elems, k :: rest =>
      match segToIndex k with
      | some i => jsGetPath (arrGet elems (Int.ofNat i)) rest
      | none => jsGetPath .undef rest
  | _, _ :: rest => jsGetPath .undef rest

/-- Vue's `$set` path walk: creates a fresh object at any missing or
non-object intermediate step, then assigns the final property. -/
def jsSetPath : JSVal → List String → JSVal → JSVal
  | _, [], v => v
  | .obj fields, [k], v => .obj (objSet fields k v)
  | .arr elems, [k], v =>
      (match segToIndex k with
       | some i => .arr (arrSet elems i v)
       | none => .arr elems)
  | _, [k], v => .obj [(k, v)]
  | .obj fields, k :: rest, v =>
      .obj (objSet fields k (jsSetPath (objGet fields k) rest v))
  | .arr elems, k :: rest, v =>
      (match segToIndex k with
       | some i => .arr (arrSet elems i (jsSetPath (arrGet elems (Int.ofNat i)) rest v))
       | none => .arr elems)
  | _, k :: rest, v => .obj [(k, jsSetPath .undef rest v)]

/-- Raw JS property read `v[k]`, which throws a TypeError when `v` is
`undefined` or `null`.  Property reads on other primitives yield
`undefined`, apart from `length` and character access on strings. -/
def jsIndexE (v : JSVal) (k : String) : Except String JSVal :=
  match v with
  | .undef => .error ("TypeError: Cannot read properties of undefined (reading "
      ++ qt ++ k ++ qt ++ ")")
  | .null => .error ("TypeError: Cannot read properties of null (reading "
      ++ qt ++ k ++ qt ++ ")")
  | .obj fields => .ok (objGet fields k)
  | .arr elems =>
      if k = "length" then .ok (.num (elems.length : Int) 0)
      else
        match segToIndex k with
        | some i => .ok (arrGet elems (Int.ofNat i))
        | none => .ok .undef
  | .str s =>
      if k = "length" then .ok (.num (s.length : Int) 0)
      else
        match segToIndex k with
        | some i => .ok (if h : i < s.length then .str (String.singleton (s.toList.get ⟨i, h⟩)) else .undef)
        | none => .ok .undef
  | _ => .ok JSVal.undef

/-- Raw JS element read `v[i]` with an integer index already at hand. -/
def jsIndexIntE (v : JSVal) (i : Int) : Except String JSVal :=
  match v with
  | .undef => .error ("TypeError: Cannot read properties of undefined (reading "
      ++ qt ++ toString i ++ qt ++ ")")
  | .null => .error ("TypeError: Cannot read properties of null (reading "
      ++ qt ++ toString i ++ qt ++ ")")
  | .arr elems => .ok (arrGet elems i)
  | .str s =>
      .ok (if h : 0 ≤ i ∧ i.toNat < s.length
        then .str (String.singleton (s.toList.get ⟨i.toNat, h.2⟩)) else .undef)
  | _ => .ok .undef

mutual

/-- `JSON.parse(JSON.stringify(v))`: drops `undefined` object fields
and turns `undefined` array slots into `null`. -/
def jsonRT : JSVal → JSVal
  | .undef => .undef
  | .null => .null
  | .bool b => .bool b
  | .num m e => .num m e
  | .str s => .str s
  | .arr elems => .arr (jsonRTListA elems)
  | .obj fields => .obj (jsonRTListF fields)
termination_by structural v => v

def jsonRTListA : List JSVal → List JSVal
  | [] => []
  | .undef :: rest => .null :: jsonRTListA rest
  | v :: rest => jsonRT v :: jsonRTListA rest
termination_by structural l => l

def jsonRTListF : List (String × JSVal) → List (String × JSVal)
  | [] => []
  | (_, .undef) :: rest => jsonRTListF rest
  | (k, v) :: rest => (k, jsonRT v) :: jsonRTListF rest
termination_by structural l => l

end

/-- Model of JS `parseInt` on decimal input: skip spaces, optional
sign, then the longest digit prefix; `none` models `NaN`. -/
def jsParseInt (s : String) : Option Int :=
  let cs := s.toList.dropWhile (· = ' ')
  let (sign, cs) : Int × List Char :=
    match cs with
    | '-' :: rest => (-1, rest)
    | '+' :: rest => (1, rest)
    | _ => (1, cs)
  let (v, n, _) := takeDigits cs
  if n = 0 then none else some (sign * Int.ofNat v)

/-- Model of JS `parseFloat` on decimal input: skip spaces, optional
sign, longest `digits [. digits]` prefix (at least one digit somewhere);
`none` models `NaN`.  The result is the scaled decimal. -/
def jsParseFloat (s : String) : Option (Int × Nat) :=
  let cs := s.toList.dropWhile (· = ' ')
  let (sign, cs) : Int × List Char :=
    match cs with
    | '-' :: rest => (-1, rest)
    | '+' :: rest => (1, rest)
    | _ => (1, cs)
  let (ip, ni, rest) := takeDigits cs
  match rest with
  | '.' :: rest2 =>
      let (fp, nf, _) := takeDigits rest2
      if ni = 0 ∧ nf = 0 then none
      else some (sign * (Int.ofNat (ip * 10 ^ nf + fp)), nf)
  | _ => if ni = 0 then none else some (sign * Int.ofNat ip, 0)

/-- JS `ToNumber` on a string (used by loose equality and relational
operators): whole-string decimal parse, empty/whitespace is `0`,
anything else is `NaN` (`none`). -/
def jsToNumber (s : String) : Option (Int × Nat) :=
  let cs := s.toList.dropWhile (· = ' ')
  if cs = [] then some (0, 0)
  else
    let (sign, cs) : Int × List Char :=
      match cs with
      | '-' :: rest => (-1, rest)
      | '+' :: rest => (1, rest)
      | _ => (1, cs)
    let (ip, ni, rest) := takeDigits cs
    match rest with
    | '.' :: rest2 =>
        let (fp, nf, rem) := takeDigits rest2
        if (ni = 0 ∧ nf = 0) ∨ rem ≠ [] then none
        else some (sign * (Int.ofNat (ip * 10 ^ nf + fp)), nf)
    | [] => if ni = 0 then none else some (sign * Int.ofNat ip, 0)
    | _ => none

/-- Decimal rendering of a scaled decimal (JS `Number.prototype.toString`
for the decimal-literal values this code can produce). -/
def numToString (m : Int) (e : Nat) : String :=
  if e = 0 then toString m
  else
    let n := m.natAbs
    let p : Nat := 10 ^ e
    let ip := n / p
    let frDigits := (Nat.repr (n % p)).toList
    let frPadded := List.replicate (e - frDigits.length) '0' ++ frDigits
    let frStripped := (frPadded.reverse.dropWhile (· = '0')).reverse
    let sign := if m < 0 then "-" else ""
    if frStripped = [] then sign ++ Nat.repr ip
    else sign ++ Nat.repr ip ++ "." ++ String.mk frStripped

mutual

/-- JS `String(v)` / `v.toString()` for defined values
(`undefined`/`null` receivers throw and are handled at call sites). -/
def jsToString : JSVal → String
  | .undef => "undefined"
  | .null => "null"
  | .bool b => if b then "true" else "false"
  | .num m e => numToString m e
  | .str s => s
  | .arr elems => jsToStringListA elems
  | .obj _ => "[object Object]"
termination_by structural v => v

def jsToStringListA : List JSVal → String
  | [] => ""
  | [v] =>
      (match v with
       | .undef => ""
       | .null => ""
       | v => jsToString v)
  | v :: rest =>
      (match v with
       | .undef => ""
       | .null => ""
       | v => jsToString v) ++ "," ++ jsToStringListA rest
termination_by structural l => l

end

/-- Numeric coercion used by JS relational and loose-equality
comparison; `none` models `NaN` (every comparison with it is false). -/
def toNumForCompare : JSVal → Option (Int × Nat)
  | .undef => none
  | .null => some (0, 0)
  | .bool b => some (if b then 1 else 0, 0)
  | .num m e => some (m, e)
  | .str s => jsToNumber s
  | .arr elems => jsToNumber (jsToStringListA elems)
  | .obj _ => none

/-- JS `<=` with a number on at least one side (the only shape this
code produces). -/
def jsLE (a b : JSVal) : Bool :=
  match toNumForCompare a, toNumForCompare b with
  | some x, some y => numsLE x y
  | _, _ => false

/-- JS `>=` with a number on at least one side. -/
def jsGE (a b : JSVal) : Bool :=
  match toNumForCompare a, toNumForCompare b with
  | some x, some y => numsLE y x
  | _, _ => false

/-- JS strict equality `===` (objects compare by reference; the stored
argument lists and checked values here never share a reference, so the
object/object case is `false`). -/
def jsStrictEq (a b : JSVal) : Bool :=
  match a, b with
  | .undef, .undef => true
  | .null, .null => true
  | .bool x, .bool y => x == y
  | .num x ex, .num y ey => numsEq (x, ex) (y, ey)
  | .str x, .str y => x == y
  | _, _ => false

/-- JS loose equality `==` restricted to the primitive shapes produced
by rule arguments and checked values. -/
def jsLooseEq (a b : JSVal) : Bool :=
  match a, b with
  | .undef, .undef => true
  | .undef, .null => true
  | .null, .undef => true
  | .null, .null => true
  | .str x, .str y => x == y
  | .undef, _ => false
  | _, .undef => false
  | .null, _ => false
  | _, .null => false
  | a, b =>
      match toNumForCompare a, toNumForCompare b with
      | some x, some y => numsEq x y
      | _, _ => false

/-- The `messages` registration argument: a single string or a list. -/
inductive Msgs where
  | str (s : String)
  | list (l : List String)
deriving Repr, DecidableEq

/-- One entry of `validator_.vars`: parallel `rules` / `keys` lists and
the root's fixed array flag. -/
structure VarEntry where
  rules : List (List (String × JSVal))
  isArray : Bool
  keys : List String
deriving Repr, DecidableEq

/-- The mutable state of the mixin: the watched data, the error tree,
the registration table, the message table, the watcher list and the
`validator_` scratch fields. -/
structure VM where
  data : JSVal
  errors : JSVal
  vars : List (String × VarEntry)
  errMsg : JSVal
  watching : List String
  value : JSVal
  path : String
  root : String
  key : String
  count : Nat
  isArr : Bool
  arraySize : Option Int
  arrayIndex : Option Int
  messages : Msgs
deriving Repr, DecidableEq

/-- Result of a method call: a value or a thrown JS string, in both
cases together with the state at return/throw time. -/
inductive VRes (α : Type) where
  | ok (a : α) (vm : VM)
  | err (e : String) (vm : VM)
deriving Repr

instance {α : Type} [DecidableEq α] : DecidableEq (VRes α) := fun a b =>
  match a, b with
  | .ok x u, .ok y v =>
      if h : x = y ∧ u = v then .isTrue (by rw [h.1, h.2])
      else .isFalse (by intro he; cases he; exact h ⟨rfl, rfl⟩)
  | .ok _ _, .err _ _ => .isFalse (by intro he; cases he)
  | .err _ _, .ok _ _ => .isFalse (by intro he; cases he)
  | .err x u, .err y v =>
      if h : x = y ∧ u = v then .isTrue (by rw [h.1, h.2])
      else .isFalse (by intro he; cases he; exact h ⟨rfl, rfl⟩)

/-- Sequencing of method calls; a throw propagates with its state. -/
def vbind {α β : Type} (r : VRes α) (f : α → VM → VRes β) : VRes β :=
  match r with
  | .ok a vm => f a vm
  | .err e vm => .err e vm

/-- Registration-table lookup (`validator_.vars[root]`). -/
def varsGet (vars : List (String × VarEntry)) (root : String) : Option VarEntry :=
  match vars.find? (fun p => p.1 == root) with
  | some p => some p.2
  | none => none

/-- Registration-table write, insertion ordered like a JS object. -/
def varsSet (vars : List (String × VarEntry)) (root : String) (e : VarEntry) :
    List (String × VarEntry) :=
  match vars with
  | [] => [(root, e)]
  | (r, e') :: rest =>
      if r = root then (r, e) :: rest else (r, e') :: varsSet rest root e

/-- `args[0]` on a stored argument value. -/
def argGet (args : JSVal) (i : Nat) : JSVal :=
  match args with
  | .arr l => l.getD i .undef
  | .str s => if h : i < s.length then .str (String.singleton (s.toList.get ⟨i, h⟩)) else .undef
  | _ => JSVal.undef

/-- The three regular-expression literals compiled in the source. -/
inductive JsRegexLit where
  | alphaNum
  | alphaDash
  | email
deriving Repr, DecidableEq

/-- What reaches the match test: a compiled literal or a raw pattern
string built by `new RegExp`. -/
inductive RegexKind where
  | lit (l : JsRegexLit)
  | raw (pattern : String)
deriving Repr, DecidableEq

/-- The argument `regex_` receives: a compiled literal from the
`email`/`alpha_num`/`alpha_dash` wrappers, or the stored rule-argument
value. -/
inductive RegexParam where
  | lit (l : JsRegexLit)
  | val (v : JSVal)
deriving Repr, DecidableEq

/-- Substring containment on characters (JS `String.prototype.indexOf`
search, reachable only through a misregistered `in` rule). -/
def containsSub (hay needle : List Char) : Bool :=
  match hay with
  | [] => needle.isEmpty
  | _ :: rest => needle.isPrefixOf hay || containsSub rest needle

section Rules

-- Oracle for the JS regular-expression engine; every theorem is
-- universally quantified over it (no claim depends on a match outcome).
variable (rx : RegexKind → String → Bool)

/-- `uncertainInput(method)`: throws. -/
def uncertainInput (method : String) (vm : VM) : VRes Bool :=
  .err ("Having a hard time resolving " ++ qt ++ vm.path ++ qt ++ " for rule "
    ++ qt ++ method ++ qt) vm

/-- The `required` rule. -/
def required_ (vm : VM) : VRes Bool :=
  match vm.value with
  | .undef => .ok false vm
  | .num _ _ => .ok true vm
  | .bool _ => .ok true vm
  | .str s => .ok (decide (0 < s.length)) vm
  | _ => uncertainInput "required" vm

/-- The `.length` throw shared by `max`/`min`/`size` on `null`
(`typeof null === 'object'`). -/
def nullLengthErr : String :=
  "TypeError: Cannot read properties of null (reading " ++ qt ++ "length" ++ qt ++ ")"

/-- The `max` rule. -/
def max_ (args : JSVal) (vm : VM) : VRes Bool :=
  match vm.value with
  | .num m e => .ok (jsLE (.num m e) (argGet args 0)) vm
  | .str s => .ok (jsLE (.num (s.length : Int) 0) (argGet args 0)) vm
  | .null => .err nullLengthErr vm
  | .arr elems => .ok (jsLE (.num (elems.length : Int) 0) (argGet args 0)) vm
  | .obj fields => .ok (jsLE (objGet fields "length") (argGet args 0)) vm
  | _ => uncertainInput "max" vm

/-- The `min` rule (its `uncertainInput` tag is `'max'` in the source). -/
def min_ (args : JSVal) (vm : VM) : VRes Bool :=
  match vm.value with
  | .num m e => .ok (jsGE (.num m e) (argGet args 0)) vm
  | .str s => .ok (jsGE (.num (s.length : Int) 0) (argGet args 0)) vm
  | .null => .err nullLengthErr vm
  | .arr elems => .ok (jsGE (.num (elems.length : Int) 0) (argGet args 0)) vm
  | .obj fields => .ok (jsGE (objGet fields "length") (argGet args 0)) vm
  | _ => uncertainInput "max" vm

/-- The `in` rule: `args.indexOf(value) !== -1`, i.e. strict-equality
containment. -/
def in_ (args : JSVal) (vm : VM) : VRes Bool :=
  match args with
  | .arr l => .ok (l.any (fun a => jsStrictEq a vm.value)) vm
  | .str s => .ok (containsSub s.toList (jsToString vm.value).toList) vm
  | _ => .err "TypeError: args.indexOf is not a function" vm

/-- The `size` rule (strict `===` comparisons). -/
def size_ (args : JSVal) (vm : VM) : VRes Bool :=
  match vm.value with
  | .num m e => .ok (jsStrictEq (.num m e) (argGet args 0)) vm
  | .str s => .ok (jsStrictEq (.num (s.length : Int) 0) (argGet args 0)) vm
  | .null => .err nullLengthErr vm
  | .arr elems => .ok (jsStrictEq (.num (elems.length : Int) 0) (argGet args 0)) vm
  | .obj fields => .ok (jsStrictEq (objGet fields "length") (argGet args 0)) vm
  | _ => uncertainInput "size" vm

/-- The `equals` rule: loose `==`. -/
def equals_ (args : JSVal) (vm : VM) : VRes Bool :=
  .ok (jsLooseEq vm.value (argGet args 0)) vm

/-- The `boolean` rule. -/
def boolean_ (vm : VM) : VRes Bool :=
  .ok (match vm.value with | .bool _ => true | _ => false) vm

/-- The `string` rule. -/
def string_ (vm : VM) : VRes Bool :=
  .ok (match vm.value with | .str _ => true | _ => false) vm

/-- The `number` rule. -/
def number_ (vm : VM) : VRes Bool :=
  .ok (match vm.value with | .num _ _ => true | _ => false) vm

/-- The `array` rule (`typeof === 'object'`). -/
def array_ (vm : VM) : VRes Bool :=
  .ok vm.value.typeofObject vm

/-- Normalises the expression argument and performs the match test. -/
def regexMatchStep (p : RegexParam) (s : String) (vm : VM) : VRes Bool :=
  match p with
  | .lit l => .ok (rx (.lit l) s) vm
  | .val v =>
      let v := if v.typeofObject then
          (match v with
           | .arr elems => arrGet elems 0
           | .obj fields => objGet fields "0"
           | _ => .undef)
        else v
      match v with
      | .str pat =>
          let pat :=
            match pat.toList with
            | '/' :: _ => (pat.drop 1).dropRight 1
            | _ => pat
          .ok (rx (.raw pat) s) vm
      | .undef => .err ("TypeError: Cannot read properties of undefined (reading "
          ++ qt ++ "0" ++ qt ++ ")") vm
      | .null => .err ("TypeError: Cannot read properties of null (reading "
          ++ qt ++ "0" ++ qt ++ ")") vm
      | v => .ok (rx (.raw (jsToString v)) s) vm

/-- The `regex` rule.  Note the side effect on the scratch value: a
non-string value is replaced by its stringification and later rules of
the same rule-set see the string. -/
def regex_ (p : RegexParam) (vm : VM) : VRes Bool :=
  match vm.value with
  | .str s =>
      if s.length = 0 then .ok true vm
      else regexMatchStep rx p s vm
  | .undef => .err ("TypeError: Cannot read properties of undefined (reading "
      ++ qt ++ "toString" ++ qt ++ ")") vm
  | .null => .err ("TypeError: Cannot read properties of null (reading "
      ++ qt ++ "toString" ++ qt ++ ")") vm
  | v =>
      let s := jsToString v
      regexMatchStep rx p s { vm with value := .str s }

/-- The `email` rule. -/
def email_ (vm : VM) : VRes Bool :=
  match vm.value with
  | .str "" => .ok true vm
  | _ => regex_ rx (.lit .email) vm

/-- The `alpha_num` rule. -/
def alphaNum_ (vm : VM) : VRes Bool :=
  match vm.value with
  | .str "" => .ok true vm
  | _ => regex_ rx (.lit .alphaNum) vm

/-- The `alpha_dash` rule. -/
def alphaDash_ (vm : VM) : VRes Bool :=
  match vm.value with
  | .str "" => .ok true vm
  | _ => regex_ rx (.lit .alphaDash) vm

/-- The keys of `validator_.validRules`, in source order. -/
def validNames : List String :=
  ["required", "max", "min", "size", "equals", "in", "boolean", "string",
   "number", "array", "regex", "alpha_num", "alpha_dash", "email"]

/-- `validRules[rule].call(this, args)`: dispatch to the bound rule
function; an unknown name throws as calling `undefined` does. -/
def evalRule (name : String) (args : JSVal) (vm : VM) : VRes Bool :=
  if name = "required" then required_ vm
  else if name = "max" then max_ args vm
  else if name = "min" then min_ args vm
  else if name = "size" then size_ args vm
  else if name = "equals" then equals_ args vm
  else if name = "in" then in_ args vm
  else if name = "boolean" then boolean_ vm
  else if name = "string" then string_ vm
  else if name = "number" then number_ vm
  else if name = "array" then array_ vm
  else if name = "regex" then regex_ rx (.val args) vm
  else if name = "alpha_num" then alphaNum_ rx vm
  else if name = "alpha_dash" then alphaDash_ rx vm
  else if name = "email" then email_ rx vm
  else .err "TypeError: this.validator_.validRules[rule] is not a function" vm

end Rules

/-! ### Registration (`registerErrorChecking` and helpers) -/

/-- `getErrorMessage()`: generic fallback, single-string reuse, or
index with clamping to the last list element. -/
def getErrorMessage (vm : VM) : String :=
  match vm.messages with
  | .str s => if s.length = 0 then "Invalid input" else s
  | .list l =>
      if l.length = 0 then "Invalid input"
      else if l.length ≤ vm.count then l.getLastD ""
      else l.getD vm.count ""

/-- `validateRule(rule)`: throws on an empty or unknown rule token. -/
def validateRule (rule : String) (vm : VM) : VRes Unit :=
  if rule ∈ validNames then .ok () vm
  else if rule = "" then
    .err ("There is a trailing " ++ qt ++ "|" ++ qt ++ " or duplicate " ++ qt
      ++ "||" ++ qt ++ " in the rules for " ++ vm.path) vm
  else .err (qt ++ rule ++ qt ++ " is not a valid rule") vm

/-- `formatArguments(splitRule)`: the raw string for `regex`, otherwise
a comma-split list where an argument with a truthy `parseFloat` result
becomes that number. -/
def formatArguments (splitRule : List String) : JSVal :=
  if splitRule.headD "" = "regex" then .str (splitRule.getD 1 "")
  else
    .arr ((jsSplit (splitRule.getD 1 "") ',').map (fun a =>
      match jsParseFloat a with
      | some (m, e) => if m ≠ 0 then .num m e else .str a
      | none => .str a))

/-- The token loop of `addRules()`: validates each token, records its
error message under `errMsg[path][rule]`, bumps `count`, and collects
the rule table (object-assignment semantics for duplicate names). -/
def addRulesAux (tokens : List String) (acc : List (String × JSVal)) (vm : VM) :
    VRes (List (String × JSVal)) :=
  match tokens with
  | [] => .ok acc vm
  | tok :: rest =>
      let splitRule := jsSplit tok ':'
      let rule := splitRule.headD ""
      vbind (validateRule rule vm) (fun _ vm =>
        let msg := getErrorMessage vm
        let vm := { vm with
          errMsg := jsSetPath vm.errMsg (jsSplit (vm.path ++ "." ++ rule) '.') (.str msg),
          count := vm.count + 1 }
        let args := if 1 < splitRule.length then formatArguments splitRule else .arr []
        addRulesAux rest (objSet acc rule args) vm)

/-- `addRules()` on the pipe-split rule string.  (The source stashes
the raw string in `validator_.rules` before splitting; the string is
threaded as an argument here.) -/
def addRules (ruleStr : String) (vm : VM) : VRes (List (String × JSVal)) :=
  addRulesAux (jsSplit ruleStr '|') [] vm

/-- `checkForConflicts()`: throws when the root's array flag differs
from the new registration's. -/
def checkForConflicts (vm : VM) : VRes Bool :=
  match varsGet vm.vars vm.root with
  | some e =>
      if vm.isArr ∧ ¬ e.isArray then
        .err (qt ++ vm.path ++ qt ++ " was not previously registered as an array") vm
      else if ¬ vm.isArr ∧ e.isArray then
        .err (qt ++ vm.path ++ qt ++ " was already saved for error checking as an array") vm
      else .ok false vm
  | none => .ok false vm

/-- Iteration count of a `for (x = 0; x < b; x++)` loop whose bound is
a JS value (`undefined` bound runs zero iterations). -/
def natIter (v : JSVal) : Nat :=
  match v with
  | .num m e => if m ≤ 0 then 0 else (((m - 1) / (10 ^ e : Int)) + 1).toNat
  | _ => 0

/-- Length used by the array-iteration loops (`value.length` on the
already-truthiness-checked current value). -/
def jsLenNat (v : JSVal) : Nat :=
  match v with
  | .arr elems => elems.length
  | .str s => s.length
  | .obj fields => natIter (objGet fields "length")
  | _ => 0

/-- Raw field assignment `target[k] = w` (strict mode: assigning to a
primitive property throws; a non-numeric own property of an array is
not representable and is dropped, which no reachable state observes). -/
def rawFieldWrite (v : JSVal) (k : String) (w : JSVal) : Except String JSVal :=
  match v with
  | .obj f => .ok (.obj (objSet f k w))
  | .arr l =>
      (match segToIndex k with
       | some i => .ok (.arr (arrSet l i w))
       | none => .ok (.arr l))
  | .undef => .error ("TypeError: Cannot set properties of undefined (setting "
      ++ qt ++ k ++ qt ++ ")")
  | .null => .error ("TypeError: Cannot set properties of null (setting "
      ++ qt ++ k ++ qt ++ ")")
  | _ => .error ("TypeError: Cannot create property " ++ qt ++ k ++ qt
      ++ " on primitive")

/-- The per-index loop of `initializeErrorArray()`: a missing slot gets
the placeholder via `$set`, an existing object slot gets the
placeholder's top-level fields merged in by raw assignment. -/
def initializeErrorArrayLoop (xs : List Nat) (temp : JSVal) (vm : VM) : VRes Unit :=
  match xs with
  | [] => .ok () vm
  | x :: rest =>
      let eroot := jsGetPath vm.errors [vm.root]
      match jsIndexIntE eroot (Int.ofNat x) with
      | .error e => .err e vm
      | .ok .undef =>
          (match eroot with
           | .arr l =>
               (match rawFieldWrite vm.errors vm.root (.arr (arrSet l x temp)) with
                | .ok errors => initializeErrorArrayLoop rest temp { vm with errors := errors }
                | .error e => .err e vm)
           | _ => .err "TypeError: this.errors[this.validator_.root].$set is not a function" vm)
      | .ok (.obj sf) =>
          (match temp with
           | .obj tf =>
               let slot := JSVal.obj (tf.foldl (fun f kv => objSet f kv.1 kv.2) sf)
               let eroot' :=
                 match eroot with
                 | .arr l => JSVal.arr (l.set x slot)
                 | .obj f => JSVal.obj (objSet f (toString x) slot)
                 | v => v
               match rawFieldWrite vm.errors vm.root eroot' with
               | .ok errors => initializeErrorArrayLoop rest temp { vm with errors := errors }
               | .error e => .err e vm
           | _ => initializeErrorArrayLoop rest temp vm)
      | .ok _ => .err "TypeError: Cannot create property on primitive" vm

/-- `initializeErrorArray()`. -/
def initializeErrorArray (vm : VM) : VRes Unit :=
  let vm := { vm with value := jsGetPath vm.data [vm.root] }
  let vm :=
    if jsGetPath vm.errors [vm.root] = .undef then
      { vm with errors := jsSetPath vm.errors [vm.root] (.arr []) }
    else vm
  let temp := jsSetPath (.obj []) (jsSplit vm.key '.') (.str "")
  let lenE : Except String JSVal :=
    match vm.arraySize with
    | some n => if n ≠ 0 then .ok (.num n 0) else jsIndexE vm.value "length"
    | none => jsIndexE vm.value "length"
  match lenE with
  | .error e => .err e vm
  | .ok lenv => initializeErrorArrayLoop (List.range (natIter lenv)) temp vm

/-- `register_()`: create or extend the root's registration entry, then
initialise its error slot(s). -/
def register_ (ruleStr : String) (vm : VM) : VRes Unit :=
  let init : VM → VRes Unit := fun vm =>
    if ¬ vm.isArr then
      .ok () { vm with errors := jsSetPath vm.errors (jsSplit vm.path '.') (.str "") }
    else initializeErrorArray vm
  match varsGet vm.vars vm.root with
  | none =>
      vbind (addRules ruleStr vm) (fun rs vm =>
        init { vm with vars := varsSet vm.vars vm.root ⟨[rs], vm.isArr, [vm.key]⟩ })
  | some e =>
      vbind (checkForConflicts vm) (fun conflict vm =>
        if conflict then .ok () vm
        else
          vbind (addRules ruleStr vm) (fun rs vm =>
            let e2 : VarEntry :=
              { e with rules := e.rules ++ [rs], keys := e.keys ++ [vm.key] }
            init { vm with vars := varsSet vm.vars vm.root e2 }))

/-- `registerErrorChecking(variable, rules, messages, watch, arraySize)`.
The watcher registration is modeled by recording the watched path. -/
def registerErrorChecking (fieldPath rules : String) (messages : Msgs)
    (watch : Bool) (arraySize : Option Int) (vm : VM) : VRes Unit :=
  let vm := { vm with
    path := fieldPath, root := fieldPath, messages := messages,
    count := 0, isArr := false, key := "" }
  let segs := jsSplit fieldPath '.'
  let vm :=
    if 1 < segs.length then
      let root := segs.headD ""
      let vm := { vm with root := root }
      if segs.getD 1 "" = "*" then
        let vm := { vm with isArr := true, path := root, arraySize := arraySize, key := "" }
        if 2 < segs.length then
          let key := jsJoin "." (segs.drop 2)
          { vm with key := key, path := root ++ "." ++ key }
        else vm
      else
        let key := jsJoin "." (segs.drop 1)
        { vm with key := key, path := root ++ "." ++ key }
    else vm
  vbind (register_ rules vm) (fun _ vm =>
    if watch ∧ ¬ vm.isArr then .ok () { vm with watching := vm.watching ++ [vm.path] }
    else .ok () vm)

/-! ### Check engine (`errorCheck` and helpers) -/

section Engine

variable (rx : RegexKind → String → Bool)

/-- Raw nested reads `value[k0][k1]...` in `fetchValueOfArray`. -/
def walkKeys : JSVal → List String → Except String JSVal
  | v, [] => .ok v
  | v, k :: rest =>
      match jsIndexE v k with
      | .error e => .error e
      | .ok v' => walkKeys v' rest

/-- `fetchValueOfArray()`: element of the live array at the current
index, then raw indexing through the key segments. -/
def fetchValueOfArray (vm : VM) : VRes JSVal :=
  if 0 < vm.key.length then
    let vm := { vm with path := vm.root ++ "." ++ vm.key }
    match jsIndexIntE (jsGetPath vm.data [vm.root]) (vm.arrayIndex.getD 0) with
    | .error e => .err e vm
    | .ok v0 =>
        match walkKeys v0 (jsSplit vm.key '.') with
        | .error e => .err e vm
        | .ok v => .ok v vm
  else
    match jsIndexIntE (jsGetPath vm.data [vm.root]) (vm.arrayIndex.getD 0) with
    | .error e => .err e vm
    | .ok v => .ok v { vm with path := vm.root }

/-- In-place replacement of `errors[root][i]` after a raw per-field
write on the slot object. -/
def rawElemUpdate (eroot : JSVal) (i : Int) (newSlot : JSVal) : JSVal :=
  match eroot with
  | .arr l => if 0 ≤ i then .arr (l.set i.toNat newSlot) else .arr l
  | .obj f => .obj (objSet f (toString i) newSlot)
  | v => v

/-- `setError_(rule)`: writes the stored message at the resolved error
location; in the array case via copy, `$set` on the key path, slot
replacement, and a JSON round-trip of the whole tree. -/
def setError_ (rule : String) (vm : VM) : VRes Unit :=
  let msg := jsGetPath vm.errMsg (jsSplit (vm.path ++ "." ++ rule) '.')
  match vm.arrayIndex with
  | none => .ok () { vm with errors := jsSetPath vm.errors (jsSplit vm.path '.') msg }
  | some i =>
      match jsIndexE vm.errors vm.root with
      | .error e => .err e vm
      | .ok eroot =>
          match jsIndexIntE eroot i with
          | .error e => .err e vm
          | .ok slot =>
              if slot = .undef then
                .err "SyntaxError: Unexpected token u in JSON at position 0" vm
              else
                let temp := jsSetPath (jsonRT slot) (jsSplit vm.key '.') msg
                match eroot with
                | .arr l =>
                    (match rawFieldWrite vm.errors vm.root (.arr (arrSet l i.toNat temp)) with
                     | .ok errors => .ok () { vm with errors := jsonRT errors }
                     | .error e => .err e vm)
                | _ => .err "TypeError: this.errors[this.validator_.root].$set is not a function" vm

/-- `clearError_()`: blanks the resolved error location; in the array
case by raw writes of the placeholder's top-level fields into the slot
object, then a JSON round-trip of the whole tree. -/
def clearError_ (vm : VM) : VRes Unit :=
  match vm.arrayIndex with
  | none => .ok () { vm with errors := jsSetPath vm.errors (jsSplit vm.path '.') (.str "") }
  | some i =>
      let temp := jsSetPath (.obj []) (jsSplit vm.key '.') (.str "")
      match jsIndexE vm.errors vm.root with
      | .error e => .err e vm
      | .ok eroot =>
          match jsIndexIntE eroot i with
          | .error e => .err e vm
          | .ok slot =>
              match slot with
              | .obj sf =>
                  (match temp with
                   | .obj tf =>
                       let slot' := JSVal.obj (tf.foldl (fun f kv => objSet f kv.1 kv.2) sf)
                       (match rawFieldWrite vm.errors vm.root (rawElemUpdate eroot i slot') with
                        | .ok errors => .ok () { vm with errors := jsonRT errors }
                        | .error e => .err e vm)
                   | _ => .ok () { vm with errors := jsonRT vm.errors })
              | .undef => .err ("TypeError: Cannot set properties of undefined (setting "
                  ++ qt ++ vm.key ++ qt ++ ")") vm
              | .null => .err ("TypeError: Cannot set properties of null (setting "
                  ++ qt ++ vm.key ++ qt ++ ")") vm
              | _ => .err "TypeError: Cannot create property on primitive" vm

/-- The rule loop of `runErrorCheckOnRules_`: first failure writes its
message and stops; every success blanks the location first. -/
def runRulesAux (rules : List (String × JSVal)) (vm : VM) : VRes Nat :=
  match rules with
  | [] => .ok 0 vm
  | (name, args) :: rest =>
      vbind (evalRule rx name args vm) (fun pass vm =>
        if pass then vbind (clearError_ vm) (fun _ vm => runRulesAux rest vm)
        else vbind (setError_ name vm) (fun _ vm => .ok 1 vm))

/-- `runErrorCheckOnRules_(rules)`. -/
def runErrorCheckOnRules_ (rules : List (String × JSVal)) (vm : VM) : VRes Nat :=
  match vm.arrayIndex with
  | none => runRulesAux rx rules { vm with value := jsGetPath vm.data (jsSplit vm.path '.') }
  | some _ =>
      vbind (fetchValueOfArray vm) (fun v vm => runRulesAux rx rules { vm with value := v })

/-- `checkSpecificKey_(key)`. -/
def checkSpecificKey_ (k : String) (vm : VM) : VRes Nat :=
  let vm := { vm with key := k }
  match varsGet vm.vars vm.root with
  | none => .err ("TypeError: Cannot read properties of undefined (reading "
      ++ qt ++ "keys" ++ qt ++ ")") vm
  | some e =>
      let idx := e.keys.indexOf k
      if idx = e.keys.length then
        .err (qt ++ k ++ qt ++ " in " ++ qt ++ vm.root ++ qt ++ " was never registered") vm
      else
        let storedKey := e.keys.getD idx ""
        let vm :=
          if 0 < storedKey.length then { vm with path := vm.root ++ "." ++ storedKey }
          else { vm with path := vm.root }
        runErrorCheckOnRules_ rx (e.rules.getD idx []) vm

/-- The key loop of `checkAllKeys_` (the registration table is not
mutated by checks, so the snapshot of `keys` is faithful). -/
def checkAllKeysAux (keys : List String) (vm : VM) : VRes Nat :=
  match keys with
  | [] => .ok 0 vm
  | k :: rest =>
      vbind (checkSpecificKey_ rx k vm) (fun n vm =>
        vbind (checkAllKeysAux rest vm) (fun m vm => .ok (n + m) vm))

/-- `checkAllKeys_()`. -/
def checkAllKeys_ (vm : VM) : VRes Nat :=
  match varsGet vm.vars vm.root with
  | none => .err ("TypeError: Cannot read properties of undefined (reading "
      ++ qt ++ "keys" ++ qt ++ ")") vm
  | some e => checkAllKeysAux rx e.keys vm

/-- The index loop of `checkWholeArray_`. -/
def checkWholeArrayAux (idxs : List Nat) (keyFilter : Option String) (vm : VM) : VRes Nat :=
  match idxs with
  | [] => .ok 0 vm
  | i :: rest =>
      let vm := { vm with arrayIndex := some (Int.ofNat i) }
      let step :=
        match keyFilter with
        | none => checkAllKeys_ rx vm
        | some k => if k = "" then checkAllKeys_ rx vm else checkSpecificKey_ rx k vm
      vbind step (fun n vm =>
        vbind (checkWholeArrayAux rest keyFilter vm) (fun m vm => .ok (n + m) vm))

/-- `checkWholeArray_(key)`: iterates the captured current value's
length; the loop counter ends one past the last index. -/
def checkWholeArray_ (keyFilter : Option String) (vm : VM) : VRes Nat :=
  let len := jsLenNat vm.value
  vbind (checkWholeArrayAux rx (List.range len) keyFilter vm) (fun n vm =>
    .ok n { vm with arrayIndex := some (Int.ofNat len) })

/-- `resetErrorsArraySize_()`: grows (only) the error array for the
root to the live length, every slot becoming the value of slot 0. -/
def resetErrorsArraySize_ (vm : VM) : VRes Unit :=
  match jsIndexE vm.errors vm.root with
  | .error e => .err e vm
  | .ok eroot =>
      match jsIndexE eroot "length" with
      | .error e => .err e vm
      | .ok elenv =>
          match jsIndexE vm.value "length" with
          | .error e => .err e vm
          | .ok vlenv =>
              let cond :=
                match toNumForCompare elenv, toNumForCompare vlenv with
                | some a, some b => numsLT a b
                | _, _ => false
              if cond then
                match jsIndexIntE eroot 0 with
                | .error e => .err e vm
                | .ok copy =>
                    (match rawFieldWrite vm.errors vm.root
                        (.arr (List.replicate (jsLenNat vm.value) copy)) with
                     | .ok errors => .ok () { vm with errors := errors }
                     | .error e => .err e vm)
              else .ok () vm

/-- `errorCheckArray_(variable)` on the already-split scope. -/
def errorCheckArray_ (segs : List String) (vm : VM) : VRes Nat :=
  let vm := { vm with value := jsGetPath vm.data [vm.root] }
  match jsIndexE vm.value "length" with
  | .error e => .err e vm
  | .ok lenv =>
      if ¬ lenv.truthy then .ok 0 vm
      else
        vbind (resetErrorsArraySize_ vm) (fun _ vm =>
          if 1 < segs.length then
            let truthyIdx :=
              match jsParseInt (segs.getD 1 "") with
              | some n => if n ≠ 0 then some n else none
              | none => none
            match truthyIdx with
            | some n =>
                let vm := { vm with arrayIndex := some n }
                let k := jsJoin "." (segs.drop 2)
                if k.length = 0 then checkAllKeys_ rx vm
                else checkSpecificKey_ rx k vm
            | none => checkWholeArray_ rx (some (jsJoin "." (segs.drop 1))) vm
          else checkWholeArray_ rx none vm)

/-- `errorCheckSpecific(variable)` after the split on `'.'`. -/
def errorCheckSegs (segs : List String) (vm : VM) : VRes Nat :=
  let vm := { vm with root := segs.headD "" }
  match varsGet vm.vars vm.root with
  | none => .err (qt ++ vm.root ++ qt ++ " was never registered for error checking") vm
  | some e =>
      if e.isArray then errorCheckArray_ rx segs vm
      else
        let vm := { vm with arrayIndex := none }
        if 1 < segs.length then
          let k := jsJoin "." (segs.drop 1)
          checkSpecificKey_ rx k { vm with key := k }
        else checkAllKeys_ rx { vm with key := "" }

/-- `errorCheckSpecific(variable)`. -/
def errorCheckSpecific (scope : String) (vm : VM) : VRes Nat :=
  errorCheckSegs rx (jsSplit scope '.') vm

/-- The all-roots loop of `errorCheck()`. -/
def errorCheckAllAux (roots : List String) (vm : VM) : VRes Nat :=
  match roots with
  | [] => .ok 0 vm
  | r :: rest =>
      vbind (errorCheckSpecific rx r vm) (fun n vm =>
        vbind (errorCheckAllAux rest vm) (fun m vm => .ok (n + m) vm))

/-- `errorCheck(variable)`: a `null` scope checks every registered
root in registration order. -/
def errorCheck (scope : Option String) (vm : VM) : VRes Nat :=
  match scope with
  | none => errorCheckAllAux rx (vm.vars.map Prod.fst) vm
  | some s => errorCheckSpecific rx s vm

/-- First-failure rule evaluation written from the spec's words: run
the rules in order on the threaded value, stop at the first failure and
report its rule name, with no error-tree writes.  Used as the
refinement comparand for the check engine. -/
def seqEval (rules : List (String × JSVal)) (vm : VM) : VRes (Option String) :=
  match rules with
  | [] => .ok none vm
  | (name, args) :: rest =>
      vbind (evalRule rx name args vm) (fun pass vm =>
        if pass then seqEval rest vm else .ok (some name) vm)

end Engine

/-- The variant library's `resetErrorsArraySize_` (the second file in
the bundle), whose guard is `!==` instead of `<`: it also rebuilds on
shrink, every slot still becoming the value of slot 0. -/
def resetErrorsArraySizeVariant_ (vm : VM) : VRes Unit :=
  match jsIndexE vm.errors vm.root with
  | .error e => .err e vm
  | .ok eroot =>
      match jsIndexE eroot "length" with
      | .error e => .err e vm
      | .ok elenv =>
          match jsIndexE vm.value "length" with
          | .error e => .err e vm
          | .ok vlenv =>
              if elenv ≠ vlenv then
                match jsIndexIntE eroot 0 with
                | .error e => .err e vm
                | .ok copy =>
                    (match rawFieldWrite vm.errors vm.root
                        (.arr (List.replicate (jsLenNat vm.value) copy)) with
                     | .ok errors => .ok () { vm with errors := errors }
                     | .error e => .err e vm)
              else .ok () vm

/-! ### Spec-side comparison definitions -/

/-- The path parser of spec section 4.1, written from the spec's words:
`{root, isArray, key}` of a field path. -/
def parsePath (fieldPath : String) : String × Bool × String :=
  let segs := jsSplit fieldPath '.'
  if segs.length ≤ 1 then (fieldPath, false, "")
  else
    let root := segs.headD ""
    if segs.getD 1 "" = "*" then (root, true, jsJoin "." (segs.drop 2))
    else (root, false, jsJoin "." (segs.drop 1))

/-- The `validator_.path` value produced by the parse block of
`registerErrorChecking` (kept faithful to the code, including the
degenerate trailing-dot inputs where it differs from `root`). -/
def pathOf (fieldPath : String) : String :=
  let segs := jsSplit fieldPath '.'
  if 1 < segs.length then
    let root := segs.headD ""
    if segs.getD 1 "" = "*" then
      if 2 < segs.length then root ++ "." ++ jsJoin "." (segs.drop 2) else root
    else root ++ "." ++ jsJoin "." (segs.drop 1)
  else fieldPath

/-- Written from the spec's words for the argument-coercion claim: an
argument string that fully parses as a (decimal) floating-point number,
`none` otherwise. -/
def fullyParsesFloat (s : String) : Option (Int × Nat) :=
  let cs := s.toList
  let (sign, cs) : Int × List Char :=
    match cs with
    | '-' :: rest => (-1, rest)
    | '+' :: rest => (1, rest)
    | _ => (1, cs)
  let (ip, ni, rest) := takeDigits cs
  match rest with
  | '.' :: rest2 =>
      let (fp, nf, rem) := takeDigits rest2
      if (ni = 0 ∧ nf = 0) ∨ rem ≠ [] then none
      else some (sign * (Int.ofNat (ip * 10 ^ nf + fp)), nf)
  | [] => if ni = 0 then none else some (sign * Int.ofNat ip, 0)
  | _ => none

/-- Loose-equality containment, written from the spec's words for the
`in(list)` claim. -/
def looseContains (l : List JSVal) (v : JSVal) : Bool :=
  l.any (fun a => jsLooseEq v a)

mutual

/-- No array node anywhere in the value (the shape of a message table
built purely by `$set` writes of strings). -/
def noArr : JSVal → Bool
  | .arr _ => false
  | .obj fields => noArrListF fields
  | _ => true
termination_by structural v => v

def noArrListF : List (String × JSVal) → Bool
  | [] => true
  | (_, v) :: rest => noArr v && noArrListF rest
termination_by structural l => l

end

/-- A `$set` walk along `segs` hits no array node, so the written leaf
is readable back. -/
def setPathSafe : JSVal → List String → Bool
  | _, [] => true
  | .arr _, _ :: _ => false
  | .obj fields, k :: rest => setPathSafe (objGet fields k) rest
  | _, _ :: _ => true

/-! ### Concrete states and projections used by witnesses -/

/-- Trivial regex oracle used to instantiate witnesses (no witness
exercises a regex-backed rule). -/
def rxTriv : RegexKind → String → Bool := fun _ _ => false

/-- The mixin's `data()` initial state together with the watched data. -/
def initialVM (d : JSVal) : VM :=
  { data := d, errors := .obj [], vars := [], errMsg := .obj [],
    watching := [], value := .undef, path := "", root := "", key := "",
    count := 0, isArr := false, arraySize := none, arrayIndex := none,
    messages := .list [] }

/-- The returned value of a call, `none` on a throw. -/
def resVal {α : Type} : VRes α → Option α
  | .ok a _ => some a
  | .err _ _ => none

/-- The thrown message of a call, `none` on success. -/
def resErr {α : Type} : VRes α → Option String
  | .ok _ _ => none
  | .err e _ => some e

/-- The state after a call (also on a throw). -/
def resVM {α : Type} : VRes α → VM
  | .ok _ vm => vm
  | .err _ vm => vm

-- Evaluation lemma set: closed runs of the model are computed by
-- `simp` (bottom-up, which keeps intermediate states in normal form).
attribute [simp] String.length String.toList

attribute [simp] qt JSVal.typeofObject JSVal.truthy numsEq numsLE numsLT

attribute [simp] jsJoin
  jsSplitAux jsSplit objGet objSet arrGet arrSet takeDigitsAux takeDigits
  segToIndex jsGetPath jsSetPath jsIndexE jsIndexIntE jsonRT jsonRTListA
  jsonRTListF jsParseInt jsParseFloat jsToNumber numToString jsToString
  jsToStringListA toNumForCompare jsLE jsGE jsStrictEq jsLooseEq varsGet
  varsSet argGet containsSub uncertainInput required_ nullLengthErr max_
  min_ in_ size_ equals_ boolean_ string_ number_ array_ regexMatchStep
  regex_ email_ alphaNum_ alphaDash_ validNames evalRule getErrorMessage
  validateRule formatArguments addRulesAux addRules checkForConflicts
  natIter jsLenNat rawFieldWrite initializeErrorArrayLoop
  initializeErrorArray register_ registerErrorChecking walkKeys
  fetchValueOfArray rawElemUpdate setError_ clearError_ runRulesAux
  runErrorCheckOnRules_ checkSpecificKey_ checkAllKeysAux checkAllKeys_
  checkWholeArrayAux checkWholeArray_ resetErrorsArraySize_
  errorCheckArray_ errorCheckSegs errorCheckSpecific errorCheckAllAux
  errorCheck seqEval resetErrorsArraySizeVariant_ parsePath pathOf
  fullyParsesFloat looseContains noArr noArrListF setPathSafe rxTriv
  initialVM resVal resErr resVM vbind

/-! ### Basic lemmas -/

@[simp] theorem vbind_ok {α β : Type} (a : α) (vm : VM) (f : α → VM → VRes β) :
    vbind (.ok a vm) f = f a vm := rfl

@[simp] theorem vbind_err {α β : Type} (e : String) (vm : VM) (f : α → VM → VRes β) :
    vbind (.err e vm) f = .err e vm := rfl

/-! ### Claim C5 (argument coercion) -/

/-- C5, counterexample.  The claim says an argument is stored as a
number exactly when it fully parses as a floating-point number.  But
`'0'` fully parses (to `0`) and is stored as the string `"0"` (because
`parseFloat('0')` is falsy), while `'5x'` does not fully parse and is
stored as the number `5` (because `parseFloat` takes the longest
numeric prefix and `5` is truthy). -/
theorem c5_counterexample :
    formatArguments ["in", "0,no"] = .arr [.str "0", .str "no"] ∧
    fullyParsesFloat "0" = some (0, 0) ∧
    formatArguments ["max", "5x"] = .arr [.num 5 0] ∧
    fullyParsesFloat "5x" = none := by
  refine ⟨by simp, by simp, by simp, by simp⟩

/-- C5, amended.  For every rule token other than `regex`, registration
splits the argument string on `','` and stores an argument as a number
exactly when `parseFloat` of it is truthy, i.e. when its longest
numeric prefix parses to a nonzero number; every other argument
(including `'0'` and non-numeric strings) is kept as a string.  In
particular `size:5` stores `[5]` as a number and `in:yes,no` stores
both arguments as strings. -/
theorem c5_amended (r s : String) (hr : r ≠ "regex") :
    formatArguments ["size", "5"] = .arr [.num 5 0] ∧
    formatArguments ["in", "yes,no"] = .arr [.str "yes", .str "no"] ∧
    ∃ l, formatArguments [r, s] = .arr l ∧
      List.Forall₂ (fun a b =>
        (∀ m e, jsParseFloat a = some (m, e) → m ≠ 0 → b = JSVal.num m e) ∧
        ((∀ m e, jsParseFloat a = some (m, e) → m = 0) → b = JSVal.str a))
        (jsSplit s ',') l := by
  refine ⟨by simp, by simp, ⟨(jsSplit s ',').map (fun a =>
    match jsParseFloat a with
    | some (m, e) => if m ≠ 0 then .num m e else .str a
    | none => .str a), ?_, ?_⟩⟩
  · simp only [formatArguments]
    rw [if_neg (by simpa using hr)]
    rfl
  · rw [List.forall₂_map_right_iff]
    rw [List.forall₂_same]
    intro a _
    constructor
    · intro m e hme hm
      rw [hme]
      simp [hm]
    · intro hall
      cases hpf : jsParseFloat a with
      | none => simp
      | some me =>
          obtain ⟨m, e⟩ := me
          have : m = 0 := hall m e hpf
          simp [this]

/-- C5, witness for the amended theorem at the rule token `in` with the
argument string `0,no`. -/
theorem c5_amended_witness :
    ∃ l, formatArguments ["in", "0,no"] = .arr l ∧
      List.Forall₂ (fun a b =>
        (∀ m e, jsParseFloat a = some (m, e) → m ≠ 0 → b = JSVal.num m e) ∧
        ((∀ m e, jsParseFloat a = some (m, e) → m = 0) → b = JSVal.str a))
        (jsSplit "0,no" ',') l :=
  (c5_amended "in" "0,no" (by decide)).2.2

/-! ### Claim C6 (the `in` rule) -/

/-- C6, counterexample.  The claim says `in(list)` passes exactly on
loose-equality containment, so the string `'10'` should be contained in
a list holding the number `10`.  The rule uses `Array.prototype.indexOf`,
which compares with strict equality: the check fails although the
loose-equality containment holds (this is also asserted by the
repository's own test suite). -/
theorem c6_counterexample :
    resVal (in_ (.arr [.num 10 0, .str "yep"])
      { initialVM (.obj []) with value := .str "10" }) = some false ∧
    looseContains [.num 10 0, .str "yep"] (.str "10") = true := by
  refine ⟨by simp, by simp⟩

/-- C6, amended.  For every `in(list)` rule and every checked value,
the rule passes if and only if some element of the stored argument list
is strictly equal (`===`) to the value: same type and same value, so
the string `'10'` is not contained in a list holding the number 10. -/
theorem c6_amended (l : List JSVal) (vm : VM) :
    resVal (in_ (.arr l) vm) = some true ↔ ∃ a ∈ l, jsStrictEq a vm.value = true := by
  simp only [in_, resVal, Option.some.injEq, List.any_eq_true]

/-! ### Claim C2 (array resize) -/

/-- A registered array root `players` with two keys `a`, `b`: the error
array has length 1 with an old failure message at slot 0's `b` leaf,
while the live array has grown to length 2 (all values valid). -/
def c2State : VM :=
  { data := .obj [("players", .arr [
      .obj [("a", .str "x"), ("b", .str "x")],
      .obj [("a", .str "x"), ("b", .str "x")]])],
    errors := .obj [("players", .arr [
      .obj [("a", .str ""), ("b", .str "MSGB")]])],
    vars := [("players",
      ⟨[[("required", .arr [])], [("required", .arr [])]], true, ["a", "b"]⟩)],
    errMsg := .obj [("players", .obj [
      ("a", .obj [("required", .str "MSGA")]),
      ("b", .obj [("required", .str "MSGB")])])],
    watching := [], value := .undef, path := "", root := "", key := "",
    count := 0, isArr := false, arraySize := none, arrayIndex := none,
    messages := .list [] }

/-- The state at the `checkSpecificKey_` call inside the check of
scope `players.1.a` from `c2State` (the error array already resized,
every slot the value of the old slot 0). -/
def c2Mid : VM :=
  { c2State with
    errors := .obj [("players", .arr [
      .obj [("a", .str ""), ("b", .str "MSGB")],
      .obj [("a", .str ""), ("b", .str "MSGB")]])],
    value := .arr [
      .obj [("a", .str "x"), ("b", .str "x")],
      .obj [("a", .str "x"), ("b", .str "x")]],
    root := "players", arrayIndex := some 1 }

/-- The state after the check of scope `players.1.a` from `c2State`. -/
def c2Post : VM :=
  { c2Mid with value := .str "x", path := "players.a", key := "a" }

/-- C2, counterexample.  The error array (length `L = 1`, slot 0
holding an old failure message at its `b` leaf) is resized to the live
length `L' = 2` by a check on the root (scope `players.1.a`), but the
newly added slot 1 is a copy of slot 0's old content: after the check
its `b` leaf reads `"MSGB"` instead of the empty placeholder shape the
claim requires for added slots. -/
theorem c2_counterexample :
    jsGetPath c2State.errors ["players"] = .arr [
      .obj [("a", .str ""), ("b", .str "MSGB")]] ∧
    jsLenNat (jsGetPath c2State.data ["players"]) = 2 ∧
    resVal (errorCheck rxTriv (some "players.1.a") c2State) = some 0 ∧
    jsGetPath (resVM (errorCheck rxTriv (some "players.1.a") c2State)).errors ["players"] = .arr [
      .obj [("a", .str ""), ("b", .str "MSGB")],
      .obj [("a", .str ""), ("b", .str "MSGB")]] := by
  have h1 : errorCheck rxTriv (some "players.1.a") c2State
      = checkSpecificKey_ rxTriv "a" c2Mid := by
    simp [-checkSpecificKey_, c2State, c2Mid]
  have h2 : checkSpecificKey_ rxTriv "a" c2Mid = .ok 0 c2Post := by
    simp [c2Mid, c2State, c2Post]
  refine ⟨by simp [c2State], by simp [c2State], ?_, ?_⟩
  · rw [h1, h2]; simp
  · rw [h1, h2]; simp [c2Post, c2Mid, c2State]

/-- C2, amended.  When the live array is longer than the error array,
`resetErrorsArraySize_` rebuilds the error array to the live length
with every slot (retained ones included) becoming the value of slot 0,
so new slots are padded with slot 0's current content, not the empty
placeholder, and retained slots lose their content; when the live array
is shorter or equal, the error array is left unchanged (no truncation).
The second library variant differs only in its guard (`!==` instead of
`<`): it also rebuilds on shrink, with the same slot-0 replication. -/
theorem c2_amended (vm : VM) (ef : List (String × JSVal)) (el vl : List JSVal)
    (he : vm.errors = .obj ef) (her : objGet ef vm.root = .arr el)
    (hv : vm.value = .arr vl) :
    resetErrorsArraySize_ vm =
      .ok () (if el.length < vl.length then
        { vm with errors := .obj (objSet ef vm.root
            (.arr (List.replicate vl.length (el.headD .undef)))) }
      else vm) ∧
    resetErrorsArraySizeVariant_ vm =
      .ok () (if el.length ≠ vl.length then
        { vm with errors := .obj (objSet ef vm.root
            (.arr (List.replicate vl.length (el.headD .undef)))) }
      else vm) := by
  have harr0 : arrGet el 0 = el.headD .undef := by
    cases el with
    | nil => simp [arrGet]
    | cons x xs => simp [arrGet]
  have h1 : jsIndexE vm.errors vm.root = .ok (.arr el) := by
    rw [he]; simp only [jsIndexE]; rw [her]
  have h2 : jsIndexE (JSVal.arr el) "length" = .ok (.num (el.length : Int) 0) := by
    simp [jsIndexE]
  have h3 : jsIndexE vm.value "length" = .ok (.num (vl.length : Int) 0) := by
    rw [hv]; simp [jsIndexE]
  have h4 : jsIndexIntE (JSVal.arr el) 0 = .ok (el.headD .undef) := by
    rw [show jsIndexIntE (JSVal.arr el) 0 = .ok (arrGet el 0) from rfl, harr0]
  have h5 : rawFieldWrite vm.errors vm.root (.arr (List.replicate vl.length (el.headD .undef)))
      = .ok (.obj (objSet ef vm.root (.arr (List.replicate vl.length (el.headD .undef))))) := by
    rw [he]; simp [rawFieldWrite]
  have h6 : jsLenNat vm.value = vl.length := by rw [hv]; rfl
  have hcond : numsLT ((el.length : Int), 0) ((vl.length : Int), 0)
      = decide (el.length < vl.length) := by
    simp [numsLT]
  have hvne : (JSVal.num (el.length : Int) 0 = JSVal.num (vl.length : Int) 0)
      ↔ el.length = vl.length := by
    constructor
    · intro h2
      exact_mod_cast (JSVal.num.inj h2).1
    · intro h2; rw [h2]
  constructor
  · unfold resetErrorsArraySize_
    rw [h1]
    simp only [h2, h3, toNumForCompare, hcond]
    by_cases h : el.length < vl.length
    · rw [if_pos (by simpa using h)]
      rw [h4]
      simp only [h6]
      rw [h5]
      simp [h]
    · rw [if_neg (by simpa using h)]
      simp [h]
  · unfold resetErrorsArraySizeVariant_
    rw [h1]
    simp only [h2, h3]
    by_cases h : el.length = vl.length
    · rw [if_neg (by simpa [Ne, hvne] using h)]
      simp [h]
    · rw [if_pos (by simpa [Ne, hvne] using h)]
      rw [h4]
      simp only [h6]
      rw [h5]
      simp [h]

/-- Entry state for the C2 witness: `c2State` with the scratch root and
value fields set as `errorCheckArray_` does. -/
def c2WitnessVM : VM :=
  { c2State with root := "players", value := jsGetPath c2State.data ["players"] }

/-- C2, witness for the amended theorem: growing a one-slot error array
to the live length two pads the new slot with slot 0's content. -/
theorem c2_amended_witness :
    resetErrorsArraySize_ c2WitnessVM = .ok ()
      { c2WitnessVM with errors := .obj [("players", .arr [
          .obj [("a", .str ""), ("b", .str "MSGB")],
          .obj [("a", .str ""), ("b", .str "MSGB")]])] } ∧
    resetErrorsArraySizeVariant_ c2WitnessVM = .ok ()
      { c2WitnessVM with errors := .obj [("players", .arr [
          .obj [("a", .str ""), ("b", .str "MSGB")],
          .obj [("a", .str ""), ("b", .str "MSGB")]])] } := by
  have h := c2_amended c2WitnessVM
    [("players", JSVal.arr [.obj [("a", .str ""), ("b", .str "MSGB")]])]
    [JSVal.obj [("a", .str ""), ("b", .str "MSGB")]]
    [JSVal.obj [("a", .str "x"), ("b", .str "x")],
     JSVal.obj [("a", .str "x"), ("b", .str "x")]]
    (by simp [c2WitnessVM, c2State]) (by simp [c2WitnessVM, c2State])
    (by simp [c2WitnessVM, c2State])
  constructor
  · rw [h.1]
    simp [c2WitnessVM, c2State]
  · rw [h.2]
    simp [c2WitnessVM, c2State]


/-! ### Claim C3 (index 0 in a check scope) -/

/-- A registered array root `players` with the single key `name`, one
live element and a one-slot error array. -/
def c3State : VM :=
  { data := .obj [("players", .arr [.obj [("name", .str "x")]])],
    errors := .obj [("players", .arr [.obj [("name", .str "")]])],
    vars := [("players", ⟨[[("required", .arr [])]], true, ["name"]⟩)],
    errMsg := .obj [("players", .obj [("name", .obj [("required", .str "Enter a name")])])],
    watching := [], value := .undef, path := "", root := "", key := "",
    count := 0, isArr := false, arraySize := none, arrayIndex := none,
    messages := .list [] }

/-- C3, counterexample.  The claim says `errorCheck('players.0')`
behaves identically to `errorCheck('players')`.  In fact
`parseInt('0')` is falsy, so the segment `'0'` is treated as a key
name: the call throws the unregistered-key error while
`errorCheck('players')` returns an error count. -/
theorem c3_counterexample :
    resErr (errorCheck rxTriv (some "players.0") c3State) =
      some (qt ++ "0" ++ qt ++ " in " ++ qt ++ "players" ++ qt
        ++ " was never registered") ∧
    resVal (errorCheck rxTriv (some "players") c3State) = some 0 := by
  refine ⟨by simp [c3State], by simp [c3State]⟩

set_option maxRecDepth 4000 in
/-- C3, amended.  For a registered array root with a non-empty live
array: a second scope segment whose `parseInt` is not a truthy integer
(`'0'` included, since `parseInt('0')` is falsy) is treated as the
head of a key filter — the check becomes `checkWholeArray_` with the
joined remaining segments as key name (throwing the unregistered-key
error unless that string happens to be a registered key), not the
plain whole-root check; whereas a nonzero integer `n` isolates index
`n`: with no further segments all registered keys are checked at index
`n` only, and with further segments only that key at index `n`. -/
theorem c3_amended (rx : RegexKind → String → Bool) (vm : VM) (root seg : String)
    (rest : List String) (e : VarEntry) (lenv : JSVal)
    (hroot : varsGet vm.vars root = some e) (harr : e.isArray = true)
    (hlen : jsIndexE (jsGetPath vm.data [root]) "length" = .ok lenv)
    (htr : lenv.truthy = true) :
    ((jsParseInt seg = none ∨ jsParseInt seg = some 0) →
      errorCheckSegs rx (root :: seg :: rest) vm =
        vbind (resetErrorsArraySize_
            { vm with root := root, value := jsGetPath vm.data [root] })
          (fun _ vm2 => checkWholeArray_ rx (some (jsJoin "." (seg :: rest))) vm2))
  ∧ (∀ n : Int, jsParseInt seg = some n → n ≠ 0 → jsJoin "." rest = "" →
      errorCheckSegs rx (root :: seg :: rest) vm =
        vbind (resetErrorsArraySize_
            { vm with root := root, value := jsGetPath vm.data [root] })
          (fun _ vm2 => checkAllKeys_ rx { vm2 with arrayIndex := some n }))
  ∧ (∀ n : Int, jsParseInt seg = some n → n ≠ 0 → jsJoin "." rest ≠ "" →
      errorCheckSegs rx (root :: seg :: rest) vm =
        vbind (resetErrorsArraySize_
            { vm with root := root, value := jsGetPath vm.data [root] })
          (fun _ vm2 => checkSpecificKey_ rx (jsJoin "." rest)
            { vm2 with arrayIndex := some n })) := by
  have hstep : errorCheckSegs rx (root :: seg :: rest) vm
      = errorCheckArray_ rx (root :: seg :: rest) { vm with root := root } := by
    simp only [errorCheckSegs, List.headD_cons]
    have hv : varsGet ({ vm with root := root }).vars root = some e := hroot
    simp only [hroot, harr, if_true]
  refine ⟨?_, ?_, ?_⟩
  · intro h
    rw [hstep]
    unfold errorCheckArray_
    simp only [hlen]
    rw [if_neg (not_not_intro htr)]
    congr 1
    funext x vm2
    rcases h with h | h <;>
    · rw [show (root :: seg :: rest).getD 1 "" = seg from rfl, h]
      simp [h, -checkWholeArray_]
  · intro n hn hn0 hrest
    rw [hstep]
    unfold errorCheckArray_
    simp only [hlen]
    rw [if_neg (not_not_intro htr)]
    congr 1
    funext x vm2
    rw [show (root :: seg :: rest).getD 1 "" = seg from rfl, hn,
      show List.drop 2 (root :: seg :: rest) = rest from rfl]
    simp [hn0, hrest, -checkAllKeys_, -checkWholeArray_, -checkSpecificKey_]
  · intro n hn hn0 hrest
    rw [hstep]
    unfold errorCheckArray_
    simp only [hlen]
    rw [if_neg (not_not_intro htr)]
    congr 1
    funext x vm2
    rw [show (root :: seg :: rest).getD 1 "" = seg from rfl, hn,
      show List.drop 2 (root :: seg :: rest) = rest from rfl]
    have hne : ¬ (jsJoin "." rest).length = 0 := by
      intro h0
      apply hrest
      cases hj : jsJoin "." rest with
      | mk data =>
        rw [hj] at h0
        cases data with
        | nil => rfl
        | cons a l => simp [String.length] at h0
    rw [if_pos (show 1 < (root :: seg :: rest).length by
      simp only [List.length_cons]; omega)]
    change (match (if n ≠ 0 then some n else none : Option Int) with
      | some m =>
          if (jsJoin "." rest).length = 0 then
            checkAllKeys_ rx { vm2 with arrayIndex := some m }
          else checkSpecificKey_ rx (jsJoin "." rest) { vm2 with arrayIndex := some m }
      | none =>
          checkWholeArray_ rx (some (jsJoin "." (List.drop 1 (root :: seg :: rest)))) vm2)
      = checkSpecificKey_ rx (jsJoin "." rest) { vm2 with arrayIndex := some n }
    rw [if_pos hn0]
    show (if (jsJoin "." rest).length = 0 then
        checkAllKeys_ rx { vm2 with arrayIndex := some n }
      else checkSpecificKey_ rx (jsJoin "." rest) { vm2 with arrayIndex := some n })
      = checkSpecificKey_ rx (jsJoin "." rest) { vm2 with arrayIndex := some n }
    rw [if_neg hne]

/-- C3, witness for the amended theorem: the zero-index conjunct at
scope segments `players.0` on the concrete state. -/
theorem c3_amended_witness :
    errorCheckSegs rxTriv ["players", "0"] c3State =
      vbind (resetErrorsArraySize_
          { c3State with root := "players", value := jsGetPath c3State.data ["players"] })
        (fun _ vm2 => checkWholeArray_ rxTriv (some (jsJoin "." ["0"])) vm2) :=
  (c3_amended rxTriv c3State "players" "0" []
    ⟨[[("required", .arr [])]], true, ["name"]⟩ (.num 1 0)
    (by simp [c3State]) (by simp) (by simp [c3State]) (by simp)).1
    (Or.inr (by simp))



/-! ### Claim C10 (no bounds check on explicit indices) -/

/-- A registered array root `players` whose live array is empty. -/
def c10State : VM :=
  { data := .obj [("players", .arr [])],
    errors := .obj [("players", .arr [])],
    vars := [("players", ⟨[[("required", .arr [])]], true, ["name"]⟩)],
    errMsg := .obj [("players", .obj [("name", .obj [("required", .str "Enter a name")])])],
    watching := [], value := .undef, path := "", root := "", key := "",
    count := 0, isArr := false, arraySize := none, arrayIndex := none,
    messages := .list [] }

/-- `jsSplitAux` always produces at least one segment. -/
theorem jsSplitAux_ne_nil (sep : Char) (l acc : List Char) :
    ∃ k0 t, jsSplitAux sep l acc = k0 :: t := by
  induction l generalizing acc with
  | nil => exact ⟨String.mk acc.reverse, [], rfl⟩
  | cons c rest ih =>
    by_cases hc : c = sep
    · exact ⟨String.mk acc.reverse, jsSplitAux sep rest [],
        by simp only [jsSplitAux]; rw [if_pos hc]⟩
    · obtain ⟨k0, t, h⟩ := ih (c :: acc)
      exact ⟨k0, t, by simp only [jsSplitAux]; rw [if_neg hc]; exact h⟩

/-- A JS string split is never the empty list. -/
theorem jsSplit_cons (s : String) (sep : Char) :
    ∃ k0 t, jsSplit s sep = k0 :: t :=
  jsSplitAux_ne_nil sep s.toList []

/-- A successful `resetErrorsArraySize_` run only rewrites `errors`. -/
theorem resetErrors_ok_shape (vm vm2 : VM)
    (h : resetErrorsArraySize_ vm = .ok () vm2) :
    ∃ er, vm2 = { vm with errors := er } := by
  unfold resetErrorsArraySize_ at h
  repeat' split at h
  any_goals exact VRes.noConfusion h
  all_goals simp only [] at h
  all_goals repeat' split at h
  any_goals exact VRes.noConfusion h
  all_goals
  · injection h with h1 h2
    exact ⟨_, h2.symm⟩

/-- A member's index points back at the member (`getD` form). -/
theorem indexOf_mem_getD (l : List String) (k : String) (h : k ∈ l) :
    l.indexOf k < l.length ∧ l.getD (l.indexOf k) "" = k := by
  induction l with
  | nil => cases h
  | cons a t ih =>
    by_cases hak : a = k
    · subst hak
      exact ⟨by simp [List.indexOf_cons_self], by simp [List.indexOf_cons_self]⟩
    · have hkt : k ∈ t := by
        rcases List.mem_cons.mp h with h1 | h2
        · exact absurd h1.symm hak
        · exact h2
      obtain ⟨ih1, ih2⟩ := ih hkt
      constructor
      · rw [List.indexOf_cons_ne t hak]
        simpa using Nat.succ_lt_succ ih1
      · rw [List.indexOf_cons_ne t hak]
        simpa using ih2

/-- C10, counterexample.  With an empty live array (length 0, falsy)
the check on scope `players.1.name` does not abort with a type error:
it returns the count 0. -/
theorem c10_counterexample :
    resVal (errorCheck rxTriv (some "players.1.name") c10State) = some 0 ∧
    resErr (errorCheck rxTriv (some "players.1.name") c10State) = none := by
  exact ⟨by simp [c10State], by simp [c10State]⟩



set_option maxRecDepth 4000 in
/-- C10, amended.  For a registered array root with a non-empty live
array (length `L >= 1`, so its length is truthy) and a successful
resize step, checking scope `root.n.key` with a truthy integer index
`n >= L` and a registered non-empty key aborts with the JS type error
raised by reading the key's first segment off the `undefined` element,
instead of returning an error count. -/
theorem c10_amended (rx : RegexKind → String → Bool) (vm vm2 : VM)
    (root seg k : String) (ksegs : List String) (n : Int) (e : VarEntry)
    (l : List JSVal)
    (hroot : varsGet vm.vars root = some e) (harr : e.isArray = true)
    (hval : jsGetPath vm.data [root] = .arr l) (hl : l ≠ [])
    (hreset : resetErrorsArraySize_
      { vm with root := root, value := .arr l } = .ok () vm2)
    (hn : jsParseInt seg = some n) (hn0 : n ≠ 0)
    (hk : k = jsJoin "." ksegs) (hk0 : 0 < k.length)
    (hkmem : k ∈ e.keys) (hge : (l.length : Int) ≤ n) :
    ∃ vmf, errorCheckSegs rx (root :: seg :: ksegs) vm =
      .err ("TypeError: Cannot read properties of undefined (reading "
        ++ qt ++ (jsSplit k '.').headD "" ++ qt ++ ")") vmf := by
  obtain ⟨k0, kt, hsplit⟩ := jsSplit_cons k '.'
  obtain ⟨er, hvm2⟩ := resetErrors_ok_shape _ _ hreset
  have hl0 : l.length ≠ 0 := fun hz => hl (List.length_eq_zero.mp hz)
  have hlen : jsIndexE (JSVal.arr l) "length" = .ok (.num (l.length : Int) 0) := rfl
  have htr : (JSVal.num (l.length : Int) 0).truthy = true := by
    simp [JSVal.truthy, hl]
  have hstep : errorCheckSegs rx (root :: seg :: ksegs) vm
      = errorCheckArray_ rx (root :: seg :: ksegs) { vm with root := root } := by
    simp only [errorCheckSegs, List.headD_cons]
    simp only [hroot, harr, if_true]
  have h2vars : vm2.vars = vm.vars := by rw [hvm2]
  have h2data : vm2.data = vm.data := by rw [hvm2]
  have h2root : vm2.root = root := by rw [hvm2]
  exact ⟨_, by
  rw [hstep]
  unfold errorCheckArray_
  simp only [hval, hlen]
  rw [if_neg (not_not_intro htr)]
  rw [hreset]
  simp only [vbind_ok]
  rw [if_pos (show 1 < (root :: seg :: ksegs).length by
    simp only [List.length_cons]; omega)]
  rw [show (root :: seg :: ksegs).getD 1 "" = seg from rfl, hn,
    show List.drop 2 (root :: seg :: ksegs) = ksegs from rfl, ← hk]
  change (match (if n ≠ 0 then some n else none : Option Int) with
    | some m =>
        if k.length = 0 then checkAllKeys_ rx { vm2 with arrayIndex := some m }
        else checkSpecificKey_ rx k { vm2 with arrayIndex := some m }
    | none =>
        checkWholeArray_ rx (some (jsJoin "." (List.drop 1 (root :: seg :: ksegs)))) vm2)
    = _
  rw [if_pos hn0]
  show (if k.length = 0 then checkAllKeys_ rx { vm2 with arrayIndex := some n }
      else checkSpecificKey_ rx k { vm2 with arrayIndex := some n }) = _
  rw [if_neg (Nat.pos_iff_ne_zero.mp hk0)]
  obtain ⟨hidxlt, hgetd⟩ := indexOf_mem_getD e.keys k hkmem
  unfold checkSpecificKey_
  simp only [h2vars, h2root, hroot]
  rw [if_neg (Nat.ne_of_lt hidxlt)]
  rw [hgetd]
  rw [if_pos hk0]
  have hidx2 : jsIndexIntE (JSVal.arr l) n = .ok JSVal.undef := by
    simp only [jsIndexIntE]
    unfold arrGet
    rw [dif_neg (show ¬(0 ≤ n ∧ n.toNat < l.length) by intro hcon; omega)]
  have hwalk : walkKeys JSVal.undef (k0 :: kt) =
      .error ("TypeError: Cannot read properties of undefined (reading "
        ++ qt ++ k0 ++ qt ++ ")") := rfl
  unfold runErrorCheckOnRules_
  simp only []
  unfold fetchValueOfArray
  simp only [h2data, hval, Option.getD_some, hidx2]
  rw [if_pos hk0]
  rw [hsplit, hwalk]
  simp only [vbind_err, List.headD_cons]
  rfl⟩


/-- C10, witness for the amended theorem: on a one-element registered
array, checking scope `players.5.name` aborts with the type error for
reading `name` off the undefined element 5. -/
theorem c10_amended_witness :
    ∃ vmf, errorCheckSegs rxTriv ["players", "5", "name"] c3State =
      .err ("TypeError: Cannot read properties of undefined (reading "
        ++ qt ++ (jsSplit "name" '.').headD "" ++ qt ++ ")") vmf :=
  c10_amended rxTriv c3State
    { c3State with root := "players", value := .arr [.obj [("name", .str "x")]] }
    "players" "5" "name" ["name"] 5
    ⟨[[("required", .arr [])]], true, ["name"]⟩ [.obj [("name", .str "x")]]
    (by simp [c3State]) (by simp) (by simp [c3State]) (by simp)
    (by simp [c3State]) (by simp) (by simp) (by simp) (by simp)
    (by simp) (by decide)


/-! ### Claim C8 (key uniqueness within a root) -/

/-- Watched data for the duplicate-registration scenario. -/
def c8Data : JSVal := .obj [("location", .obj [("city", .obj [("zip", .str "ok")])])]

/-- The state after registering `location.city.zip` once on fresh data. -/
def c8Mid : VM :=
  { data := c8Data,
    errors := .obj [("location", .obj [("city", .obj [("zip", .str "")])])],
    vars := [("location", ⟨[[("required", .arr [])]], false, ["city.zip"]⟩)],
    errMsg := .obj [("location", .obj [("city", .obj [("zip", .obj [("required", .str "m")])])])],
    watching := [], value := .undef, path := "location.city.zip", root := "location",
    key := "city.zip", count := 1, isArr := false, arraySize := none, arrayIndex := none,
    messages := .str "m" }

/-- C8, counterexample.  Re-registering the same `(root, key)` pair
succeeds and appends the key again, so the stored key sequence
`["city.zip", "city.zip"]` is not duplicate-free. -/
theorem c8_counterexample :
    registerErrorChecking "location.city.zip" "required" (.str "m") false none
      (initialVM c8Data) = .ok () c8Mid ∧
    ((varsGet (resVM (registerErrorChecking "location.city.zip" "required" (.str "m")
        false none c8Mid)).vars "location").map VarEntry.keys
      = some ["city.zip", "city.zip"] ∧
    ¬ (["city.zip", "city.zip"] : List String).Nodup) := by
  refine ⟨by simp [c8Data, c8Mid, initialVM], by simp [c8Data, c8Mid], by decide⟩


/-- Inversion of a successful `vbind`. -/
theorem vbind_ok_inv {α β : Type} (x : VRes α) (f : α → VM → VRes β) (b : β) (vmf : VM)
    (h : vbind x f = .ok b vmf) : ∃ a vm1, x = .ok a vm1 ∧ f a vm1 = .ok b vmf := by
  cases x with
  | ok a vm1 => exact ⟨a, vm1, rfl, by simpa [vbind] using h⟩
  | err e vm1 => simp [vbind] at h

/-- A successful `validateRule` leaves the state untouched. -/
theorem validateRule_ok_state (r : String) (vm vm2 : VM) (x : Unit)
    (h : validateRule r vm = .ok x vm2) : vm2 = vm := by
  unfold validateRule at h
  split at h
  · injection h with h1 h2
    exact h2.symm
  · split at h <;> exact VRes.noConfusion h

/-- `addRulesAux` touches only `errMsg` and `count`: the registration
table, root, array flag and key survive. -/
theorem addRulesAux_frame (toks : List String) (acc : List (String × JSVal))
    (vm vm2 : VM) (rs : List (String × JSVal))
    (h : addRulesAux toks acc vm = .ok rs vm2) :
    vm2.vars = vm.vars ∧ vm2.root = vm.root ∧ vm2.isArr = vm.isArr ∧ vm2.key = vm.key := by
  induction toks generalizing acc vm with
  | nil =>
    unfold addRulesAux at h
    injection h with h1 h2
    rw [h2]
    exact ⟨rfl, rfl, rfl, rfl⟩
  | cons tok rest ih =>
    unfold addRulesAux at h
    simp only [] at h
    obtain ⟨x, vm1, hval, hrest⟩ := vbind_ok_inv _ _ _ _ h
    have hvm1 : vm1 = vm := validateRule_ok_state _ _ _ _ hval
    subst hvm1
    have hx := ih _ _ hrest
    exact hx

/-- The per-index error initialisation loop never touches the frame
fields either. -/
theorem initializeErrorArrayLoop_frame (xs : List Nat) (temp : JSVal) (vm vm2 : VM)
    (h : initializeErrorArrayLoop xs temp vm = .ok () vm2) : vm2.vars = vm.vars := by
  induction xs generalizing vm with
  | nil =>
    unfold initializeErrorArrayLoop at h
    injection h with h1 h2
    rw [h2]
  | cons x rest ih =>
    unfold initializeErrorArrayLoop at h
    simp only [] at h
    repeat' split at h
    any_goals exact VRes.noConfusion h
    all_goals
    · have hx := ih _ h
      exact hx

/-- `initializeErrorArray` preserves the registration table. -/
theorem initializeErrorArray_vars (vm vm2 : VM)
    (h : initializeErrorArray vm = .ok () vm2) : vm2.vars = vm.vars := by
  unfold initializeErrorArray at h
  try simp only [] at h
  repeat' split at h
  any_goals exact VRes.noConfusion h
  all_goals
  · have hx := initializeErrorArrayLoop_frame _ _ _ _ h
    exact hx

/-- A successful `checkForConflicts` returns `false` and the state
unchanged (its `true` branch is dead code). -/
theorem checkForConflicts_ok (vm vm2 : VM) (c : Bool)
    (h : checkForConflicts vm = .ok c vm2) : c = false ∧ vm2 = vm := by
  unfold checkForConflicts at h
  repeat' split at h
  any_goals exact VRes.noConfusion h
  all_goals
  · injection h with h1 h2
    exact ⟨h1.symm, h2.symm⟩

/-- Table lookup after a cons. -/
theorem varsGet_cons (r1 : String) (e1 : VarEntry) (rest : List (String × VarEntry))
    (r : String) :
    varsGet ((r1, e1) :: rest) r = if r1 = r then some e1 else varsGet rest r := by
  unfold varsGet
  by_cases h : r1 = r
  · rw [List.find?_cons_of_pos]
    · rw [if_pos h]
    · simpa using h
  · rw [List.find?_cons_of_neg]
    · rw [if_neg h]
    · simpa using h

/-- Writing a root then reading it back. -/
theorem varsGet_varsSet_self (vars : List (String × VarEntry)) (r : String) (e : VarEntry) :
    varsGet (varsSet vars r e) r = some e := by
  induction vars with
  | nil => simp [varsSet, varsGet_cons]
  | cons p rest ih =>
    obtain ⟨r1, e1⟩ := p
    unfold varsSet
    by_cases h : r1 = r
    · rw [if_pos h, varsGet_cons, if_pos h]
    · rw [if_neg h, varsGet_cons, if_neg h]
      exact ih

/-- Writing one root leaves every other root's entry alone. -/
theorem varsGet_varsSet_ne (vars : List (String × VarEntry)) (r r2 : String) (e : VarEntry)
    (hne : r2 ≠ r) : varsGet (varsSet vars r e) r2 = varsGet vars r2 := by
  induction vars with
  | nil =>
    show varsGet [(r, e)] r2 = varsGet [] r2
    rw [varsGet_cons, if_neg (fun hh => hne hh.symm)]
  | cons p rest ih =>
    obtain ⟨r1, e1⟩ := p
    unfold varsSet
    by_cases h : r1 = r
    · subst h
      rw [if_pos rfl, varsGet_cons, varsGet_cons]
      rw [if_neg (fun hh => hne hh.symm), if_neg (fun hh => hne hh.symm)]
    · rw [if_neg h, varsGet_cons, varsGet_cons]
      by_cases h2 : r1 = r2
      · rw [if_pos h2, if_pos h2]
      · rw [if_neg h2, if_neg h2]
        exact ih

/-- Exactly how a successful `register_` run changes the registration
table: a fresh root gets a one-key entry, an existing root gets the new
key appended. -/
theorem register_vars_cases (ruleStr : String) (vm vm2 : VM)
    (h : register_ ruleStr vm = .ok () vm2) :
    (∃ rs, varsGet vm.vars vm.root = none ∧
      vm2.vars = varsSet vm.vars vm.root ⟨[rs], vm.isArr, [vm.key]⟩) ∨
    (∃ rs e, varsGet vm.vars vm.root = some e ∧
      vm2.vars = varsSet vm.vars vm.root
        { e with rules := e.rules ++ [rs], keys := e.keys ++ [vm.key] }) := by
  unfold register_ at h
  simp only [] at h
  split at h
  case h_1 heq =>
    left
    obtain ⟨rs, vm1, hadd, hinit⟩ := vbind_ok_inv _ _ _ _ h
    obtain ⟨hv, hr, hi, hk⟩ := addRulesAux_frame _ _ _ _ _ hadd
    refine ⟨rs, heq, ?_⟩
    split at hinit
    · injection hinit with h1 h2
      rw [← h2]
      simp only [hv, hr, hi, hk]
    · have := initializeErrorArray_vars _ _ hinit
      rw [this]
      simp only [hv, hr, hi, hk]
  case h_2 e heq =>
    right
    obtain ⟨c, vm1, hconf, hrest⟩ := vbind_ok_inv _ _ _ _ h
    obtain ⟨hc, hvm1⟩ := checkForConflicts_ok _ _ _ hconf
    subst hvm1
    rw [hc] at hrest
    simp only [Bool.false_eq_true, if_false] at hrest
    obtain ⟨rs, vm3, hadd, hinit⟩ := vbind_ok_inv _ _ _ _ hrest
    obtain ⟨hv, hr, hi, hk⟩ := addRulesAux_frame _ _ _ _ _ hadd
    refine ⟨rs, e, heq, ?_⟩
    split at hinit
    · injection hinit with h1 h2
      rw [← h2]
      simp only [hv, hr, hi, hk]
    · have := initializeErrorArray_vars _ _ hinit
      rw [this]
      simp only [hv, hr, hi, hk]


/-- The state produced by the path-parse block at the top of
`registerErrorChecking` (verbatim copy, named so it can be reasoned
about). -/
def regParsedVM (fieldPath : String) (messages : Msgs) (arraySize : Option Int)
    (vm : VM) : VM :=
  let vm := { vm with
    path := fieldPath, root := fieldPath, messages := messages,
    count := 0, isArr := false, key := "" }
  let segs := jsSplit fieldPath '.'
  if 1 < segs.length then
    let root := segs.headD ""
    let vm := { vm with root := root }
    if segs.getD 1 "" = "*" then
      let vm := { vm with isArr := true, path := root, arraySize := arraySize, key := "" }
      if 2 < segs.length then
        let key := jsJoin "." (segs.drop 2)
        { vm with key := key, path := root ++ "." ++ key }
      else vm
    else
      let key := jsJoin "." (segs.drop 1)
      { vm with key := key, path := root ++ "." ++ key }
  else vm

/-- `registerErrorChecking` is the parse block followed by `register_`
and the watch step. -/
theorem registerErrorChecking_eq (f r : String) (m : Msgs) (w : Bool)
    (a : Option Int) (vm : VM) :
    registerErrorChecking f r m w a vm =
      vbind (register_ r (regParsedVM f m a vm)) (fun _ vm =>
        if w ∧ ¬ vm.isArr then .ok () { vm with watching := vm.watching ++ [vm.path] }
        else .ok () vm) := rfl

/-- The parse block computes exactly the `parsePath` components and
leaves the registration table alone. -/
theorem regParsedVM_fields (f : String) (m : Msgs) (a : Option Int) (vm : VM) :
    (regParsedVM f m a vm).vars = vm.vars ∧
    (regParsedVM f m a vm).root = (parsePath f).1 ∧
    (regParsedVM f m a vm).isArr = (parsePath f).2.1 ∧
    (regParsedVM f m a vm).key = (parsePath f).2.2 := by
  unfold regParsedVM parsePath
  simp only []
  by_cases h1 : 1 < (jsSplit f '.').length
  · rw [if_pos h1, if_neg (show ¬ (jsSplit f '.').length ≤ 1 by omega)]
    by_cases h2 : (jsSplit f '.').getD 1 "" = "*"
    · rw [if_pos h2, if_pos h2]
      by_cases h3 : 2 < (jsSplit f '.').length
      · rw [if_pos h3]
        exact ⟨rfl, rfl, rfl, rfl⟩
      · rw [if_neg h3]
        have hdrop : (jsSplit f '.').drop 2 = [] := List.drop_eq_nil_of_le (by omega)
        rw [hdrop]
        exact ⟨rfl, rfl, rfl, rfl⟩
    · rw [if_neg h2, if_neg h2]
      exact ⟨rfl, rfl, rfl, rfl⟩
  · rw [if_neg h1, if_pos (show (jsSplit f '.').length ≤ 1 by omega)]
    exact ⟨rfl, rfl, rfl, rfl⟩

/-- C8, amended.  A successful registration whose parsed key is fresh
for its parsed root preserves duplicate-freeness of every root's key
sequence; with an already-registered `(root, key)` pair the key is
appended again and the invariant breaks (see the counterexample). -/
theorem c8_amended (f rules : String) (m : Msgs) (w : Bool) (a : Option Int)
    (vm vmf : VM)
    (hok : registerErrorChecking f rules m w a vm = .ok () vmf)
    (hinv : ∀ r2 e2, varsGet vm.vars r2 = some e2 → e2.keys.Nodup)
    (hfresh : ∀ e2, varsGet vm.vars (parsePath f).1 = some e2 →
      (parsePath f).2.2 ∉ e2.keys) :
    ∀ r2 e2, varsGet vmf.vars r2 = some e2 → e2.keys.Nodup := by
  rw [registerErrorChecking_eq] at hok
  obtain ⟨x, vmr, hreg, hwatch⟩ := vbind_ok_inv _ _ _ _ hok
  have hwv : vmf.vars = vmr.vars := by
    split at hwatch <;>
    · injection hwatch with h1 h2
      rw [← h2]
  obtain ⟨hpv, hpr, hpi, hpk⟩ := regParsedVM_fields f m a vm
  intro r2 e2 hget
  rw [hwv] at hget
  rcases register_vars_cases _ _ _ hreg with ⟨rs, hnone, hset⟩ | ⟨rs, e, hsome, hset⟩
  · rw [hset, hpv, hpr, hpk] at hget
    by_cases hr2 : r2 = (parsePath f).1
    · subst hr2
      rw [varsGet_varsSet_self] at hget
      injection hget with hget
      rw [← hget]
      simp
    · rw [varsGet_varsSet_ne _ _ _ _ hr2] at hget
      exact hinv _ _ hget
  · rw [hset, hpv, hpr, hpk] at hget
    rw [hpv, hpr] at hsome
    by_cases hr2 : r2 = (parsePath f).1
    · subst hr2
      rw [varsGet_varsSet_self] at hget
      injection hget with hget
      rw [← hget]
      show (e.keys ++ [(parsePath f).2.2]).Nodup
      rw [List.nodup_append]
      refine ⟨hinv _ _ hsome, by simp, ?_⟩
      intro y hy hy2
      rw [List.mem_singleton] at hy2
      subst hy2
      exact hfresh _ hsome hy
    · rw [varsGet_varsSet_ne _ _ _ _ hr2] at hget
      exact hinv _ _ hget

/-- C8, witness for the amended theorem: after the first (fresh)
registration of `location.city.zip`, the table's `location` entry has
the duplicate-free key list `["city.zip"]`. -/
theorem c8_amended_witness :
    (⟨[[("required", JSVal.arr [])]], false, ["city.zip"]⟩ : VarEntry).keys.Nodup :=
  c8_amended "location.city.zip" "required" (.str "m") false none
    (initialVM c8Data) c8Mid
    (by simp [c8Data, c8Mid, initialVM])
    (by intro r2 e2 h; simp [initialVM, varsGet] at h)
    (by intro e2 h; simp [initialVM, varsGet] at h)
    "location" ⟨[[("required", JSVal.arr [])]], false, ["city.zip"]⟩
    (by simp [c8Mid])


/-! ### Claim C9 (partial message writes before a rule-token throw) -/

/-- Statement-side mirror of the error-message writes `addRules`
performs for a prefix of rule tokens (each token writes its message
and bumps the count; nothing else changes). -/
def msgWrites (toks : List String) (vm : VM) : VM :=
  match toks with
  | [] => vm
  | tok :: rest =>
      let rule := (jsSplit tok ':').headD ""
      msgWrites rest { vm with
        errMsg := jsSetPath vm.errMsg (jsSplit (vm.path ++ "." ++ rule) '.')
          (.str (getErrorMessage vm)),
        count := vm.count + 1 }

/-- `msgWrites` never touches the registration table. -/
theorem msgWrites_vars (toks : List String) (vm : VM) :
    (msgWrites toks vm).vars = vm.vars := by
  induction toks generalizing vm with
  | nil => rfl
  | cons tok rest ih =>
    unfold msgWrites
    simp only []
    exact ih _

/-- `msgWrites` keeps the resolved path. -/
theorem msgWrites_path (toks : List String) (vm : VM) :
    (msgWrites toks vm).path = vm.path := by
  induction toks generalizing vm with
  | nil => rfl
  | cons tok rest ih =>
    unfold msgWrites
    simp only []
    exact ih _

/-- `addRulesAux` on a token list with a first invalid token at
position `good.length`: the messages of the `good` prefix are written,
then the run throws with the state holding those writes. -/
theorem addRulesAux_prefix_err (good : List String) (bad : String)
    (restT : List String) (acc : List (String × JSVal)) (vm : VM)
    (hgood : ∀ tok ∈ good, (jsSplit tok ':').headD "" ∈ validNames)
    (hbad : (jsSplit bad ':').headD "" ∉ validNames) :
    addRulesAux (good ++ bad :: restT) acc vm =
      .err (if (jsSplit bad ':').headD "" = ""
          then "There is a trailing " ++ qt ++ "|" ++ qt ++ " or duplicate " ++ qt
            ++ "||" ++ qt ++ " in the rules for " ++ vm.path
          else qt ++ (jsSplit bad ':').headD "" ++ qt ++ " is not a valid rule")
        (msgWrites good vm) := by
  induction good generalizing acc vm with
  | nil =>
    simp only [List.nil_append]
    unfold addRulesAux
    simp only []
    unfold validateRule
    rw [if_neg hbad]
    by_cases hb : (jsSplit bad ':').headD "" = ""
    · rw [if_pos hb, if_pos hb]
      rfl
    · rw [if_neg hb, if_neg hb]
      rfl
  | cons g rest ih =>
    simp only [List.cons_append]
    unfold addRulesAux
    simp only []
    unfold validateRule
    rw [if_pos (hgood g (List.mem_cons_self g rest))]
    rw [show ∀ x vm2, vbind (VRes.ok x vm2) = fun f => f x vm2 from fun x vm2 => rfl]
    simp only []
    rw [ih _ _ (fun tok htok => hgood tok (List.mem_cons_of_mem g htok))]
    rfl


/-- C9, counterexample.  With an invalid second token but a root whose
existing registration conflicts on the array flag, the call throws the
conflict error before `addRules` runs: no message of the same call has
been written (the message table is untouched). -/
theorem c9_counterexample :
    (jsSplit "required|bogus" '|' = ["required", "bogus"] ∧
      "required" ∈ validNames ∧ (jsSplit "bogus" ':').headD "" ∉ validNames) ∧
    resErr (registerErrorChecking "players.x" "required|bogus" (.str "m")
        false none c3State)
      = some (qt ++ "players.x" ++ qt ++ " was already saved for error checking as an array") ∧
    (resVM (registerErrorChecking "players.x" "required|bogus" (.str "m")
        false none c3State)).errMsg = c3State.errMsg := by
  refine ⟨⟨by decide, by decide, by decide⟩, by simp [c3State], by simp [c3State]⟩

/-- C9, amended.  When the parsed root does not conflict on the array
flag (in particular for a fresh root), a rule string whose first
invalid token sits after `good` valid ones makes the call throw the
token's error with exactly the `good` messages already written and the
registration table unchanged. -/
theorem c9_amended (f ruleStr : String) (m : Msgs) (w : Bool) (a : Option Int)
    (vm : VM) (good : List String) (bad : String) (restT : List String)
    (hsplit : jsSplit ruleStr '|' = good ++ bad :: restT)
    (hgood : ∀ tok ∈ good, (jsSplit tok ':').headD "" ∈ validNames)
    (hbad : (jsSplit bad ':').headD "" ∉ validNames)
    (hnc : ∀ e, varsGet vm.vars (parsePath f).1 = some e →
      e.isArray = (parsePath f).2.1) :
    registerErrorChecking f ruleStr m w a vm =
      .err (if (jsSplit bad ':').headD "" = ""
          then "There is a trailing " ++ qt ++ "|" ++ qt ++ " or duplicate " ++ qt
            ++ "||" ++ qt ++ " in the rules for " ++ (regParsedVM f m a vm).path
          else qt ++ (jsSplit bad ':').headD "" ++ qt ++ " is not a valid rule")
        (msgWrites good (regParsedVM f m a vm)) ∧
    (msgWrites good (regParsedVM f m a vm)).vars = vm.vars := by
  obtain ⟨hpv, hpr, hpi, hpk⟩ := regParsedVM_fields f m a vm
  refine ⟨?_, by rw [msgWrites_vars, hpv]⟩
  have haddr : addRules ruleStr (regParsedVM f m a vm) =
      .err (if (jsSplit bad ':').headD "" = ""
          then "There is a trailing " ++ qt ++ "|" ++ qt ++ " or duplicate " ++ qt
            ++ "||" ++ qt ++ " in the rules for " ++ (regParsedVM f m a vm).path
          else qt ++ (jsSplit bad ':').headD "" ++ qt ++ " is not a valid rule")
        (msgWrites good (regParsedVM f m a vm)) := by
    unfold addRules
    rw [hsplit]
    exact addRulesAux_prefix_err _ _ _ _ _ hgood hbad
  rw [registerErrorChecking_eq]
  unfold register_
  simp only []
  split
  · rw [haddr]
    rfl
  case h_2 e heq =>
    have he : e.isArray = (regParsedVM f m a vm).isArr := by
      rw [hpi]
      exact hnc e (by rw [← hpr, ← hpv]; exact heq)
    have hcf : checkForConflicts (regParsedVM f m a vm)
        = .ok false (regParsedVM f m a vm) := by
      unfold checkForConflicts
      rw [heq]
      simp only []
      rw [he]
      simp
    rw [hcf]
    simp only [vbind_ok]
    rw [if_neg (by simp)]
    rw [haddr]
    rfl

/-- C9, witness for the amended theorem: registering a fresh scalar
field with rules `required|bogus` throws the invalid-rule error with
the `required` message already written and no table entry created. -/
theorem c9_amended_witness :
    registerErrorChecking "teamname" "required|bogus" (.str "m") false none
      (initialVM (.obj [("teamname", .str "x")])) =
      .err (if (jsSplit "bogus" ':').headD "" = ""
          then "There is a trailing " ++ qt ++ "|" ++ qt ++ " or duplicate " ++ qt
            ++ "||" ++ qt ++ " in the rules for "
            ++ (regParsedVM "teamname" (.str "m") none
              (initialVM (.obj [("teamname", .str "x")]))).path
          else qt ++ (jsSplit "bogus" ':').headD "" ++ qt ++ " is not a valid rule")
        (msgWrites ["required"] (regParsedVM "teamname" (.str "m") none
          (initialVM (.obj [("teamname", .str "x")])))) ∧
    (msgWrites ["required"] (regParsedVM "teamname" (.str "m") none
      (initialVM (.obj [("teamname", .str "x")])))).vars
      = (initialVM (.obj [("teamname", .str "x")])).vars :=
  c9_amended "teamname" "required|bogus" (.str "m") false none
    (initialVM (.obj [("teamname", .str "x")])) ["required"] "bogus" []
    (by decide) (by decide) (by decide)
    (by intro e h; simp [initialVM, varsGet] at h)


/-! ### Claim C1 (scalar first-failure semantics) -/

/-- Transport of a rule result to a state whose `errors` field was
swapped (rule evaluation never reads or writes `errors`). -/
def mapErrors (E : JSVal) : VRes Bool → VRes Bool
  | .ok a vm => .ok a { vm with errors := E }
  | .err e vm => .err e { vm with errors := E }

/-- The `required` rule ignores the `errors` field. -/
theorem requiredRuleErrors (vm : VM) (E : JSVal) :
    required_ { vm with errors := E } = mapErrors E (required_ vm) := by
  unfold required_ uncertainInput
  try simp only []
  repeat' split <;> try rfl
  all_goals rfl

/-- A normal `required` run only rewrites the scratch value. -/
theorem requiredRuleShape (vm vm2 : VM) (b : Bool)
    (h : required_ vm = .ok b vm2) : ∃ v2, vm2 = { vm with value := v2 } := by
  unfold required_ uncertainInput at h
  try simp only [] at h
  repeat' split at h
  all_goals try exact VRes.noConfusion h
  all_goals
  · injection h with h1 h2
    subst h2
    exact ⟨_, rfl⟩

/-- The `max` rule ignores the `errors` field. -/
theorem maxRuleErrors (args : JSVal) (vm : VM) (E : JSVal) :
    max_ args { vm with errors := E } = mapErrors E (max_ args vm) := by
  unfold max_ uncertainInput
  try simp only []
  repeat' split <;> try rfl
  all_goals rfl

/-- A normal `max` run only rewrites the scratch value. -/
theorem maxRuleShape (args : JSVal) (vm vm2 : VM) (b : Bool)
    (h : max_ args vm = .ok b vm2) : ∃ v2, vm2 = { vm with value := v2 } := by
  unfold max_ uncertainInput at h
  try simp only [] at h
  repeat' split at h
  all_goals try exact VRes.noConfusion h
  all_goals
  · injection h with h1 h2
    subst h2
    exact ⟨_, rfl⟩

/-- The `min` rule ignores the `errors` field. -/
theorem minRuleErrors (args : JSVal) (vm : VM) (E : JSVal) :
    min_ args { vm with errors := E } = mapErrors E (min_ args vm) := by
  unfold min_ uncertainInput
  try simp only []
  repeat' split <;> try rfl
  all_goals rfl

/-- A normal `min` run only rewrites the scratch value. -/
theorem minRuleShape (args : JSVal) (vm vm2 : VM) (b : Bool)
    (h : min_ args vm = .ok b vm2) : ∃ v2, vm2 = { vm with value := v2 } := by
  unfold min_ uncertainInput at h
  try simp only [] at h
  repeat' split at h
  all_goals try exact VRes.noConfusion h
  all_goals
  · injection h with h1 h2
    subst h2
    exact ⟨_, rfl⟩

/-- The `size` rule ignores the `errors` field. -/
theorem sizeRuleErrors (args : JSVal) (vm : VM) (E : JSVal) :
    size_ args { vm with errors := E } = mapErrors E (size_ args vm) := by
  unfold size_ uncertainInput
  try simp only []
  repeat' split <;> try rfl
  all_goals rfl

/-- A normal `size` run only rewrites the scratch value. -/
theorem sizeRuleShape (args : JSVal) (vm vm2 : VM) (b : Bool)
    (h : size_ args vm = .ok b vm2) : ∃ v2, vm2 = { vm with value := v2 } := by
  unfold size_ uncertainInput at h
  try simp only [] at h
  repeat' split at h
  all_goals try exact VRes.noConfusion h
  all_goals
  · injection h with h1 h2
    subst h2
    exact ⟨_, rfl⟩

/-- The `equals` rule ignores the `errors` field. -/
theorem equalsRuleErrors (args : JSVal) (vm : VM) (E : JSVal) :
    equals_ args { vm with errors := E } = mapErrors E (equals_ args vm) := by
  unfold equals_
  try simp only []
  repeat' split <;> try rfl
  all_goals rfl

/-- A normal `equals` run only rewrites the scratch value. -/
theorem equalsRuleShape (args : JSVal) (vm vm2 : VM) (b : Bool)
    (h : equals_ args vm = .ok b vm2) : ∃ v2, vm2 = { vm with value := v2 } := by
  unfold equals_ at h
  try simp only [] at h
  repeat' split at h
  all_goals try exact VRes.noConfusion h
  all_goals
  · injection h with h1 h2
    subst h2
    exact ⟨_, rfl⟩

/-- The `in` rule ignores the `errors` field. -/
theorem inRuleErrors (args : JSVal) (vm : VM) (E : JSVal) :
    in_ args { vm with errors := E } = mapErrors E (in_ args vm) := by
  unfold in_
  try simp only []
  repeat' split <;> try rfl
  all_goals rfl

/-- A normal `in` run only rewrites the scratch value. -/
theorem inRuleShape (args : JSVal) (vm vm2 : VM) (b : Bool)
    (h : in_ args vm = .ok b vm2) : ∃ v2, vm2 = { vm with value := v2 } := by
  unfold in_ at h
  try simp only [] at h
  repeat' split at h
  all_goals try exact VRes.noConfusion h
  all_goals
  · injection h with h1 h2
    subst h2
    exact ⟨_, rfl⟩

/-- The `boolean` rule ignores the `errors` field. -/
theorem booleanRuleErrors (vm : VM) (E : JSVal) :
    boolean_ { vm with errors := E } = mapErrors E (boolean_ vm) := by
  unfold boolean_
  try simp only []
  repeat' split <;> try rfl
  all_goals rfl

/-- A normal `boolean` run only rewrites the scratch value. -/
theorem booleanRuleShape (vm vm2 : VM) (b : Bool)
    (h : boolean_ vm = .ok b vm2) : ∃ v2, vm2 = { vm with value := v2 } := by
  unfold boolean_ at h
  try simp only [] at h
  repeat' split at h
  all_goals try exact VRes.noConfusion h
  all_goals
  · injection h with h1 h2
    subst h2
    exact ⟨_, rfl⟩

/-- The `string` rule ignores the `errors` field. -/
theorem stringRuleErrors (vm : VM) (E : JSVal) :
    string_ { vm with errors := E } = mapErrors E (string_ vm) := by
  unfold string_
  try simp only []
  repeat' split <;> try rfl
  all_goals rfl

/-- A normal `string` run only rewrites the scratch value. -/
theorem stringRuleShape (vm vm2 : VM) (b : Bool)
    (h : string_ vm = .ok b vm2) : ∃ v2, vm2 = { vm with value := v2 } := by
  unfold string_ at h
  try simp only [] at h
  repeat' split at h
  all_goals try exact VRes.noConfusion h
  all_goals
  · injection h with h1 h2
    subst h2
    exact ⟨_, rfl⟩

/-- The `number` rule ignores the `errors` field. -/
theorem numberRuleErrors (vm : VM) (E : JSVal) :
    number_ { vm with errors := E } = mapErrors E (number_ vm) := by
  unfold number_
  try simp only []
  repeat' split <;> try rfl
  all_goals rfl

/-- A normal `number` run only rewrites the scratch value. -/
theorem numberRuleShape (vm vm2 : VM) (b : Bool)
    (h : number_ vm = .ok b vm2) : ∃ v2, vm2 = { vm with value := v2 } := by
  unfold number_ at h
  try simp only [] at h
  repeat' split at h
  all_goals try exact VRes.noConfusion h
  all_goals
  · injection h with h1 h2
    subst h2
    exact ⟨_, rfl⟩

/-- The `array` rule ignores the `errors` field. -/
theorem arrayRuleErrors (vm : VM) (E : JSVal) :
    array_ { vm with errors := E } = mapErrors E (array_ vm) := by
  unfold array_
  try simp only []
  repeat' split <;> try rfl
  all_goals rfl

/-- A normal `array` run only rewrites the scratch value. -/
theorem arrayRuleShape (vm vm2 : VM) (b : Bool)
    (h : array_ vm = .ok b vm2) : ∃ v2, vm2 = { vm with value := v2 } := by
  unfold array_ at h
  try simp only [] at h
  repeat' split at h
  all_goals try exact VRes.noConfusion h
  all_goals
  · injection h with h1 h2
    subst h2
    exact ⟨_, rfl⟩

/-- The `regex` rule ignores the `errors` field. -/
theorem regexRuleErrors (rx : RegexKind → String → Bool) (args : JSVal) (vm : VM) (E : JSVal) :
    regex_ rx (.val args) { vm with errors := E } = mapErrors E (regex_ rx (.val args) vm) := by
  unfold regex_ regexMatchStep
  try simp only []
  repeat' split <;> try rfl
  all_goals rfl

/-- A normal `regex` run only rewrites the scratch value. -/
theorem regexRuleShape (rx : RegexKind → String → Bool) (args : JSVal) (vm vm2 : VM) (b : Bool)
    (h : regex_ rx (.val args) vm = .ok b vm2) : ∃ v2, vm2 = { vm with value := v2 } := by
  unfold regex_ regexMatchStep at h
  try simp only [] at h
  repeat' split at h
  all_goals try exact VRes.noConfusion h
  all_goals
  · injection h with h1 h2
    subst h2
    exact ⟨_, rfl⟩

/-- The `alpha_num` rule ignores the `errors` field. -/
theorem alphanumRuleErrors (rx : RegexKind → String → Bool) (vm : VM) (E : JSVal) :
    alphaNum_ rx { vm with errors := E } = mapErrors E (alphaNum_ rx vm) := by
  unfold alphaNum_ regex_ regexMatchStep
  try simp only []
  repeat' split <;> try rfl
  all_goals rfl

/-- A normal `alpha_num` run only rewrites the scratch value. -/
theorem alphanumRuleShape (rx : RegexKind → String → Bool) (vm vm2 : VM) (b : Bool)
    (h : alphaNum_ rx vm = .ok b vm2) : ∃ v2, vm2 = { vm with value := v2 } := by
  unfold alphaNum_ regex_ regexMatchStep at h
  try simp only [] at h
  repeat' split at h
  all_goals try exact VRes.noConfusion h
  all_goals
  · injection h with h1 h2
    subst h2
    exact ⟨_, rfl⟩

/-- The `alpha_dash` rule ignores the `errors` field. -/
theorem alphadashRuleErrors (rx : RegexKind → String → Bool) (vm : VM) (E : JSVal) :
    alphaDash_ rx { vm with errors := E } = mapErrors E (alphaDash_ rx vm) := by
  unfold alphaDash_ regex_ regexMatchStep
  try simp only []
  repeat' split <;> try rfl
  all_goals rfl

/-- A normal `alpha_dash` run only rewrites the scratch value. -/
theorem alphadashRuleShape (rx : RegexKind → String → Bool) (vm vm2 : VM) (b : Bool)
    (h : alphaDash_ rx vm = .ok b vm2) : ∃ v2, vm2 = { vm with value := v2 } := by
  unfold alphaDash_ regex_ regexMatchStep at h
  try simp only [] at h
  repeat' split at h
  all_goals try exact VRes.noConfusion h
  all_goals
  · injection h with h1 h2
    subst h2
    exact ⟨_, rfl⟩

/-- The `email` rule ignores the `errors` field. -/
theorem emailRuleErrors (rx : RegexKind → String → Bool) (vm : VM) (E : JSVal) :
    email_ rx { vm with errors := E } = mapErrors E (email_ rx vm) := by
  unfold email_ regex_ regexMatchStep
  try simp only []
  repeat' split <;> try rfl
  all_goals rfl

/-- A normal `email` run only rewrites the scratch value. -/
theorem emailRuleShape (rx : RegexKind → String → Bool) (vm vm2 : VM) (b : Bool)
    (h : email_ rx vm = .ok b vm2) : ∃ v2, vm2 = { vm with value := v2 } := by
  unfold email_ regex_ regexMatchStep at h
  try simp only [] at h
  repeat' split at h
  all_goals try exact VRes.noConfusion h
  all_goals
  · injection h with h1 h2
    subst h2
    exact ⟨_, rfl⟩

/-- Rule evaluation ignores the `errors` field and leaves it alone. -/
theorem evalRule_errors (rx : RegexKind → String → Bool) (name : String)
    (args : JSVal) (vm : VM) (E : JSVal) :
    evalRule rx name args { vm with errors := E } =
      mapErrors E (evalRule rx name args vm) := by
  unfold evalRule
  by_cases h0 : name = "required"
  · rw [if_pos h0, if_pos h0]
    exact requiredRuleErrors vm E
  · rw [if_neg h0, if_neg h0]
    by_cases h1 : name = "max"
    · rw [if_pos h1, if_pos h1]
      exact maxRuleErrors args vm E
    · rw [if_neg h1, if_neg h1]
      by_cases h2 : name = "min"
      · rw [if_pos h2, if_pos h2]
        exact minRuleErrors args vm E
      · rw [if_neg h2, if_neg h2]
        by_cases h3 : name = "size"
        · rw [if_pos h3, if_pos h3]
          exact sizeRuleErrors args vm E
        · rw [if_neg h3, if_neg h3]
          by_cases h4 : name = "equals"
          · rw [if_pos h4, if_pos h4]
            exact equalsRuleErrors args vm E
          · rw [if_neg h4, if_neg h4]
            by_cases h5 : name = "in"
            · rw [if_pos h5, if_pos h5]
              exact inRuleErrors args vm E
            · rw [if_neg h5, if_neg h5]
              by_cases h6 : name = "boolean"
              · rw [if_pos h6, if_pos h6]
                exact booleanRuleErrors vm E
              · rw [if_neg h6, if_neg h6]
                by_cases h7 : name = "string"
                · rw [if_pos h7, if_pos h7]
                  exact stringRuleErrors vm E
                · rw [if_neg h7, if_neg h7]
                  by_cases h8 : name = "number"
                  · rw [if_pos h8, if_pos h8]
                    exact numberRuleErrors vm E
                  · rw [if_neg h8, if_neg h8]
                    by_cases h9 : name = "array"
                    · rw [if_pos h9, if_pos h9]
                      exact arrayRuleErrors vm E
                    · rw [if_neg h9, if_neg h9]
                      by_cases h10 : name = "regex"
                      · rw [if_pos h10, if_pos h10]
                        exact regexRuleErrors rx args vm E
                      · rw [if_neg h10, if_neg h10]
                        by_cases h11 : name = "alpha_num"
                        · rw [if_pos h11, if_pos h11]
                          exact alphanumRuleErrors rx vm E
                        · rw [if_neg h11, if_neg h11]
                          by_cases h12 : name = "alpha_dash"
                          · rw [if_pos h12, if_pos h12]
                            exact alphadashRuleErrors rx vm E
                          · rw [if_neg h12, if_neg h12]
                            by_cases h13 : name = "email"
                            · rw [if_pos h13, if_pos h13]
                              exact emailRuleErrors rx vm E
                            · rw [if_neg h13, if_neg h13]
                              rfl

/-- A rule that returns normally only rewrites the scratch value. -/
theorem evalRule_ok_shape (rx : RegexKind → String → Bool) (name : String)
    (args : JSVal) (vm vm2 : VM) (b : Bool)
    (h : evalRule rx name args vm = .ok b vm2) :
    ∃ v2, vm2 = { vm with value := v2 } := by
  unfold evalRule at h
  by_cases h0 : name = "required"
  · rw [if_pos h0] at h
    exact requiredRuleShape vm vm2 b h
  · rw [if_neg h0] at h
    by_cases h1 : name = "max"
    · rw [if_pos h1] at h
      exact maxRuleShape args vm vm2 b h
    · rw [if_neg h1] at h
      by_cases h2 : name = "min"
      · rw [if_pos h2] at h
        exact minRuleShape args vm vm2 b h
      · rw [if_neg h2] at h
        by_cases h3 : name = "size"
        · rw [if_pos h3] at h
          exact sizeRuleShape args vm vm2 b h
        · rw [if_neg h3] at h
          by_cases h4 : name = "equals"
          · rw [if_pos h4] at h
            exact equalsRuleShape args vm vm2 b h
          · rw [if_neg h4] at h
            by_cases h5 : name = "in"
            · rw [if_pos h5] at h
              exact inRuleShape args vm vm2 b h
            · rw [if_neg h5] at h
              by_cases h6 : name = "boolean"
              · rw [if_pos h6] at h
                exact booleanRuleShape vm vm2 b h
              · rw [if_neg h6] at h
                by_cases h7 : name = "string"
                · rw [if_pos h7] at h
                  exact stringRuleShape vm vm2 b h
                · rw [if_neg h7] at h
                  by_cases h8 : name = "number"
                  · rw [if_pos h8] at h
                    exact numberRuleShape vm vm2 b h
                  · rw [if_neg h8] at h
                    by_cases h9 : name = "array"
                    · rw [if_pos h9] at h
                      exact arrayRuleShape vm vm2 b h
                    · rw [if_neg h9] at h
                      by_cases h10 : name = "regex"
                      · rw [if_pos h10] at h
                        exact regexRuleShape rx args vm vm2 b h
                      · rw [if_neg h10] at h
                        by_cases h11 : name = "alpha_num"
                        · rw [if_pos h11] at h
                          exact alphanumRuleShape rx vm vm2 b h
                        · rw [if_neg h11] at h
                          by_cases h12 : name = "alpha_dash"
                          · rw [if_pos h12] at h
                            exact alphadashRuleShape rx vm vm2 b h
                          · rw [if_neg h12] at h
                            by_cases h13 : name = "email"
                            · rw [if_pos h13] at h
                              exact emailRuleShape rx vm vm2 b h
                            · rw [if_neg h13] at h
                              exact VRes.noConfusion h


/-- Object read after a cons. -/
theorem objGet_cons (k1 : String) (v1 : JSVal) (rest : List (String × JSVal))
    (k : String) :
    objGet ((k1, v1) :: rest) k = if k1 = k then v1 else objGet rest k := by
  unfold objGet
  by_cases h : k1 = k
  · rw [List.find?_cons_of_pos]
    · rw [if_pos h]
    · simpa using h
  · rw [List.find?_cons_of_neg]
    · rw [if_neg h]
    · simpa using h

/-- Object write after a cons. -/
theorem objSet_cons (k1 : String) (v1 : JSVal) (rest : List (String × JSVal))
    (k : String) (v : JSVal) :
    objSet ((k1, v1) :: rest) k v
      = if k1 = k then (k1, v) :: rest else (k1, v1) :: objSet rest k v := rfl

/-- Writing a property then reading it back. -/
theorem objGet_objSet_self (f : List (String × JSVal)) (k : String) (v : JSVal) :
    objGet (objSet f k v) k = v := by
  induction f with
  | nil => rw [show objSet [] k v = [(k, v)] from rfl, objGet_cons, if_pos rfl]
  | cons p rest ih =>
    obtain ⟨k1, v1⟩ := p
    rw [objSet_cons]
    by_cases h : k1 = k
    · rw [if_pos h, objGet_cons, if_pos h]
    · rw [if_neg h, objGet_cons, if_neg h]
      exact ih

/-- Writing a property twice keeps only the second value. -/
theorem objSet_objSet_self (f : List (String × JSVal)) (k : String) (a b : JSVal) :
    objSet (objSet f k a) k b = objSet f k b := by
  induction f with
  | nil =>
    rw [show objSet [] k a = [(k, a)] from rfl, objSet_cons, if_pos rfl]
    rfl
  | cons p rest ih =>
    obtain ⟨k1, v1⟩ := p
    by_cases h : k1 = k
    · rw [objSet_cons, if_pos h, objSet_cons, if_pos h, objSet_cons, if_pos h]
    · rw [objSet_cons, if_neg h, objSet_cons, if_neg h, objSet_cons, if_neg h, ih]

/-- A `$set` write extends the array past the written index. -/
theorem arrSet_length (l : List JSVal) (i : Nat) (v : JSVal) :
    i < (arrSet l i v).length := by
  unfold arrSet
  by_cases h : l.length ≤ i
  · rw [if_pos h]
    simp only [List.length_set, List.length_append, List.length_replicate]
    omega
  · rw [if_neg h]
    simp only [List.length_set]
    omega

/-- Writing a slot twice keeps only the second value. -/
theorem arrSet_arrSet_self (l : List JSVal) (i : Nat) (a b : JSVal) :
    arrSet (arrSet l i a) i b = arrSet l i b := by
  unfold arrSet
  simp only []
  by_cases h : l.length ≤ i
  · rw [if_pos h]
    rw [if_neg (by simp only [List.length_set, List.length_append,
      List.length_replicate]; omega)]
    rw [List.set_set]
  · rw [if_neg h]
    rw [if_neg (by simp only [List.length_set]; omega)]
    rw [List.set_set]

/-- `get` after `set` at the same index. -/
theorem list_get_set (l : List JSVal) (i : Nat) (v : JSVal)
    (h : i < (l.set i v).length) : (l.set i v).get ⟨i, h⟩ = v := by
  induction l generalizing i with
  | nil => exact absurd h (by simp)
  | cons x xs ih =>
    cases i with
    | zero => rfl
    | succ n => exact ih n (by simpa using h)

/-- Writing a slot then reading it back. -/
theorem arrGet_arrSet_self (l : List JSVal) (i : Nat) (v : JSVal) :
    arrGet (arrSet l i v) (Int.ofNat i) = v := by
  have hlen : (Int.ofNat i).toNat < (arrSet l i v).length := by
    simpa using arrSet_length l i v
  unfold arrGet
  rw [dif_pos ⟨Int.ofNat_nonneg i, hlen⟩]
  exact list_get_set _ i v (by simpa using arrSet_length l i v)


/-- `$set` on an array with one segment left. -/
theorem jsSetPath_arr_single (l : List JSVal) (k : String) (v : JSVal) :
    jsSetPath (.arr l) [k] v = match segToIndex k with
      | some i => .arr (arrSet l i v)
      | none => .arr l := rfl

/-- `$set` on an array with more segments left. -/
theorem jsSetPath_arr_cons (l : List JSVal) (k k2 : String) (r2 : List String)
    (v : JSVal) :
    jsSetPath (.arr l) (k :: k2 :: r2) v = match segToIndex k with
      | some i => .arr (arrSet l i (jsSetPath (arrGet l (Int.ofNat i)) (k2 :: r2) v))
      | none => .arr l := rfl

/-- A `$set` write along a path, repeated, keeps only the second leaf. -/
theorem jsSetPath_overwrite (segs : List String) (t : JSVal) (a b : JSVal) :
    jsSetPath (jsSetPath t segs a) segs b = jsSetPath t segs b := by
  induction segs generalizing t with
  | nil => cases t <;> cases a <;> rfl
  | cons k rest ih =>
    cases rest with
    | nil =>
      cases t with
      | obj f =>
        show JSVal.obj (objSet (objSet f k a) k b) = .obj (objSet f k b)
        rw [objSet_objSet_self]
      | arr l =>
        cases hsi : segToIndex k with
        | some i =>
          rw [jsSetPath_arr_single, hsi]
          simp only []
          rw [jsSetPath_arr_single, hsi]
          simp only []
          rw [arrSet_arrSet_self]
          have hr : jsSetPath (JSVal.arr l) [k] b = .arr (arrSet l i b) := by
            rw [jsSetPath_arr_single, hsi]
          rw [hr]
        | none =>
          rw [jsSetPath_arr_single, hsi]
      | undef =>
        show JSVal.obj (objSet [(k, a)] k b) = _
        rw [objSet_cons, if_pos rfl]
        rfl
      | null =>
        show JSVal.obj (objSet [(k, a)] k b) = _
        rw [objSet_cons, if_pos rfl]
        rfl
      | bool x =>
        show JSVal.obj (objSet [(k, a)] k b) = _
        rw [objSet_cons, if_pos rfl]
        rfl
      | num m e =>
        show JSVal.obj (objSet [(k, a)] k b) = _
        rw [objSet_cons, if_pos rfl]
        rfl
      | str s =>
        show JSVal.obj (objSet [(k, a)] k b) = _
        rw [objSet_cons, if_pos rfl]
        rfl
    | cons k2 r2 =>
      cases t with
      | obj f =>
        show JSVal.obj (objSet (objSet f k (jsSetPath (objGet f k) (k2 :: r2) a)) k
            (jsSetPath (objGet (objSet f k (jsSetPath (objGet f k) (k2 :: r2) a)) k)
              (k2 :: r2) b)) = _
        rw [objGet_objSet_self, objSet_objSet_self, ih]
        rfl
      | arr l =>
        cases hsi : segToIndex k with
        | some i =>
          rw [jsSetPath_arr_cons, hsi]
          simp only []
          rw [jsSetPath_arr_cons, hsi]
          simp only []
          rw [arrGet_arrSet_self, arrSet_arrSet_self, ih]
          have hr : jsSetPath (JSVal.arr l) (k :: k2 :: r2) b
              = .arr (arrSet l i (jsSetPath (arrGet l (Int.ofNat i)) (k2 :: r2) b)) := by
            rw [jsSetPath_arr_cons, hsi]
          rw [hr]
        | none =>
          rw [jsSetPath_arr_cons, hsi]
      | undef =>
        show JSVal.obj (objSet [(k, jsSetPath .undef (k2 :: r2) a)] k
            (jsSetPath (objGet [(k, jsSetPath .undef (k2 :: r2) a)] k) (k2 :: r2) b)) = _
        rw [objGet_cons, if_pos rfl, objSet_cons, if_pos rfl, ih]
        rfl
      | null =>
        show JSVal.obj (objSet [(k, jsSetPath .undef (k2 :: r2) a)] k
            (jsSetPath (objGet [(k, jsSetPath .undef (k2 :: r2) a)] k) (k2 :: r2) b)) = _
        rw [objGet_cons, if_pos rfl, objSet_cons, if_pos rfl, ih]
        rfl
      | bool x =>
        show JSVal.obj (objSet [(k, jsSetPath .undef (k2 :: r2) a)] k
            (jsSetPath (objGet [(k, jsSetPath .undef (k2 :: r2) a)] k) (k2 :: r2) b)) = _
        rw [objGet_cons, if_pos rfl, objSet_cons, if_pos rfl, ih]
        rfl
      | num m e =>
        show JSVal.obj (objSet [(k, jsSetPath .undef (k2 :: r2) a)] k
            (jsSetPath (objGet [(k, jsSetPath .undef (k2 :: r2) a)] k) (k2 :: r2) b)) = _
        rw [objGet_cons, if_pos rfl, objSet_cons, if_pos rfl, ih]
        rfl
      | str s =>
        show JSVal.obj (objSet [(k, jsSetPath .undef (k2 :: r2) a)] k
            (jsSetPath (objGet [(k, jsSetPath .undef (k2 :: r2) a)] k) (k2 :: r2) b)) = _
        rw [objGet_cons, if_pos rfl, objSet_cons, if_pos rfl, ih]
        rfl


/-- Reading back a `$set` leaf along a safe path. -/
theorem jsGetPath_setPath (segs : List String) (t : JSVal) (w : JSVal)
    (hsafe : setPathSafe t segs = true) :
    jsGetPath (jsSetPath t segs w) segs = w := by
  induction segs generalizing t with
  | nil => cases t <;> cases w <;> rfl
  | cons k rest ih =>
    cases t with
    | arr l => exact absurd hsafe (by simp [setPathSafe])
    | obj f =>
      have hsafe2 : setPathSafe (objGet f k) rest = true := hsafe
      cases rest with
      | nil =>
        show jsGetPath (objGet (objSet f k w) k) [] = w
        rw [objGet_objSet_self]
        cases w <;> rfl
      | cons k2 r2 =>
        show jsGetPath (objGet (objSet f k (jsSetPath (objGet f k) (k2 :: r2) w)) k)
          (k2 :: r2) = w
        rw [objGet_objSet_self]
        exact ih _ hsafe2
    | undef =>
      cases rest with
      | nil =>
        show jsGetPath (objGet [(k, w)] k) [] = w
        rw [objGet_cons, if_pos rfl]
        cases w <;> rfl
      | cons k2 r2 =>
        show jsGetPath (objGet [(k, jsSetPath .undef (k2 :: r2) w)] k) (k2 :: r2) = w
        rw [objGet_cons, if_pos rfl]
        exact ih JSVal.undef rfl
    | null =>
      cases rest with
      | nil =>
        show jsGetPath (objGet [(k, w)] k) [] = w
        rw [objGet_cons, if_pos rfl]
        cases w <;> rfl
      | cons k2 r2 =>
        show jsGetPath (objGet [(k, jsSetPath .undef (k2 :: r2) w)] k) (k2 :: r2) = w
        rw [objGet_cons, if_pos rfl]
        exact ih JSVal.undef rfl
    | bool x =>
      cases rest with
      | nil =>
        show jsGetPath (objGet [(k, w)] k) [] = w
        rw [objGet_cons, if_pos rfl]
        cases w <;> rfl
      | cons k2 r2 =>
        show jsGetPath (objGet [(k, jsSetPath .undef (k2 :: r2) w)] k) (k2 :: r2) = w
        rw [objGet_cons, if_pos rfl]
        exact ih JSVal.undef rfl
    | num m e =>
      cases rest with
      | nil =>
        show jsGetPath (objGet [(k, w)] k) [] = w
        rw [objGet_cons, if_pos rfl]
        cases w <;> rfl
      | cons k2 r2 =>
        show jsGetPath (objGet [(k, jsSetPath .undef (k2 :: r2) w)] k) (k2 :: r2) = w
        rw [objGet_cons, if_pos rfl]
        exact ih JSVal.undef rfl
    | str s =>
      cases rest with
      | nil =>
        show jsGetPath (objGet [(k, w)] k) [] = w
        rw [objGet_cons, if_pos rfl]
        cases w <;> rfl
      | cons k2 r2 =>
        show jsGetPath (objGet [(k, jsSetPath .undef (k2 :: r2) w)] k) (k2 :: r2) = w
        rw [objGet_cons, if_pos rfl]
        exact ih JSVal.undef rfl

/-- `clearError_` off array mode blanks the resolved path. -/
theorem clearError_none (vm : VM)
    (h : vm.arrayIndex = none) :
    clearError_ vm = .ok ()
      { vm with errors := jsSetPath vm.errors (jsSplit vm.path '.') (.str "") } := by
  unfold clearError_
  rw [h]

/-- `setError_` off array mode writes the stored message at the
resolved path. -/
theorem setError_none (rule : String) (vm : VM) (h : vm.arrayIndex = none) :
    setError_ rule vm = .ok ()
      { vm with errors := (jsSetPath vm.errors (jsSplit vm.path '.')
        (jsGetPath vm.errMsg (jsSplit (vm.path ++ "." ++ rule) '.'))) } := by
  unfold setError_
  simp only []
  rw [h]


/-- The engine's rule loop refines the spec-side first-failure
evaluator: starting from any error tree `E`, an all-pass run returns 0
and blanks the resolved path, and a first-failure run returns 1 and
writes the failing rule's stored message there, evaluating no later
rule. -/
theorem runRules_seq (rx : RegexKind → String → Bool)
    (rules : List (String × JSVal)) (vm : VM) (E : JSVal)
    (hai : vm.arrayIndex = none) (hne : rules ≠ []) :
    (∀ vmS, seqEval rx rules vm = .ok none vmS →
        runRulesAux rx rules { vm with errors := E } =
          .ok 0 { vmS with errors := (jsSetPath E (jsSplit vm.path '.') (.str "")) }) ∧
    (∀ f vmS, seqEval rx rules vm = .ok (some f) vmS →
        runRulesAux rx rules { vm with errors := E } =
          .ok 1 { vmS with errors := (jsSetPath E (jsSplit vm.path '.')
            (jsGetPath vm.errMsg (jsSplit (vm.path ++ "." ++ f) '.'))) }) := by
  induction rules generalizing vm E with
  | nil => exact absurd rfl hne
  | cons rl rest ih =>
    obtain ⟨name, args⟩ := rl
    constructor
    · intro vmS hseq
      unfold seqEval at hseq
      obtain ⟨p, vm1, hev, hcont⟩ := vbind_ok_inv _ _ _ _ hseq
      obtain ⟨v1, hv1⟩ := evalRule_ok_shape rx name args vm vm1 p hev
      subst hv1
      unfold runRulesAux
      rw [evalRule_errors, hev]
      simp only [mapErrors, vbind_ok]
      cases p with
      | false =>
        rw [if_neg (by simp)] at hcont
        injection hcont with hc1 hc2
        exact Option.noConfusion hc1
      | true =>
        rw [if_pos rfl] at hcont
        rw [if_pos rfl]
        rw [clearError_none { vm with errors := E, value := v1 } hai]
        simp only [vbind_ok]
        by_cases hr : rest = []
        · subst hr
          unfold seqEval at hcont
          injection hcont with hc1 hc2
          subst hc2
          unfold runRulesAux
          rfl
        · have ihc := (ih { vm with value := v1 }
            (jsSetPath E (jsSplit vm.path '.') (.str "")) hai hr).1 vmS hcont
          simp only [] at ihc ⊢
          rw [ihc, jsSetPath_overwrite]
    · intro f vmS hseq
      unfold seqEval at hseq
      obtain ⟨p, vm1, hev, hcont⟩ := vbind_ok_inv _ _ _ _ hseq
      obtain ⟨v1, hv1⟩ := evalRule_ok_shape rx name args vm vm1 p hev
      subst hv1
      unfold runRulesAux
      rw [evalRule_errors, hev]
      simp only [mapErrors, vbind_ok]
      cases p with
      | false =>
        rw [if_neg (by simp)] at hcont
        injection hcont with hc1 hc2
        injection hc1 with hc1
        subst hc1
        subst hc2
        rw [if_neg (by simp)]
        rw [setError_none name { vm with errors := E, value := v1 } hai]
        simp only [vbind_ok]
      | true =>
        rw [if_pos rfl] at hcont
        rw [if_pos rfl]
        rw [clearError_none { vm with errors := E, value := v1 } hai]
        simp only [vbind_ok]
        by_cases hr : rest = []
        · subst hr
          unfold seqEval at hcont
          injection hcont with hc1 hc2
          exact Option.noConfusion hc1
        · have ihc := (ih { vm with value := v1 }
            (jsSetPath E (jsSplit vm.path '.') (.str "")) hai hr).2 f vmS hcont
          simp only [] at ihc ⊢
          rw [ihc, jsSetPath_overwrite]


set_option maxRecDepth 4000 in
/-- C1, amended.  A scoped check of a registered non-array key refines
the spec-side first-failure evaluator `seqEval` — an all-pass run
returns 0 and writes `""` at the resolved path, a first-failure run
returns 1 and writes the failing rule's stored message there and
evaluates no later rule — and, whenever the error tree admits a
readable write at that path, the written leaf reads back as `""`
exactly in the all-pass case and as the first failing rule's message
otherwise. -/
theorem c1_amended (rx : RegexKind → String → Bool) (vm : VM) (root k : String)
    (ksegs : List String) (e : VarEntry)
    (hroot : varsGet vm.vars root = some e) (hna : e.isArray = false)
    (hks : ksegs ≠ []) (hk : k = jsJoin "." ksegs) (hk0 : 0 < k.length)
    (hkmem : k ∈ e.keys)
    (hrules : e.rules.getD (e.keys.indexOf k) [] ≠ []) :
    (∀ vmS, seqEval rx (e.rules.getD (e.keys.indexOf k) [])
        { vm with
          root := root, arrayIndex := none, key := k,
          path := root ++ "." ++ k,
          value := jsGetPath vm.data (jsSplit (root ++ "." ++ k) '.') } = .ok none vmS →
      errorCheckSegs rx (root :: ksegs) vm =
        .ok 0 { vmS with errors := (jsSetPath vm.errors
          (jsSplit (root ++ "." ++ k) '.') (.str "")) } ∧
      (setPathSafe vm.errors (jsSplit (root ++ "." ++ k) '.') = true →
        jsGetPath (jsSetPath vm.errors (jsSplit (root ++ "." ++ k) '.') (.str ""))
          (jsSplit (root ++ "." ++ k) '.') = .str "")) ∧
    (∀ f vmS, seqEval rx (e.rules.getD (e.keys.indexOf k) [])
        { vm with
          root := root, arrayIndex := none, key := k,
          path := root ++ "." ++ k,
          value := jsGetPath vm.data (jsSplit (root ++ "." ++ k) '.') } = .ok (some f) vmS →
      errorCheckSegs rx (root :: ksegs) vm =
        .ok 1 { vmS with errors := (jsSetPath vm.errors
          (jsSplit (root ++ "." ++ k) '.')
          (jsGetPath vm.errMsg (jsSplit ((root ++ "." ++ k) ++ "." ++ f) '.'))) } ∧
      (setPathSafe vm.errors (jsSplit (root ++ "." ++ k) '.') = true →
        jsGetPath (jsSetPath vm.errors (jsSplit (root ++ "." ++ k) '.')
            (jsGetPath vm.errMsg (jsSplit ((root ++ "." ++ k) ++ "." ++ f) '.')))
          (jsSplit (root ++ "." ++ k) '.')
          = jsGetPath vm.errMsg (jsSplit ((root ++ "." ++ k) ++ "." ++ f) '.'))) := by
  cases ksegs with
  | nil => exact absurd rfl hks
  | cons k1 krest =>
  subst hk
  obtain ⟨hidxlt, hgetd⟩ := indexOf_mem_getD e.keys _ hkmem
  have hstep : errorCheckSegs rx (root :: k1 :: krest) vm
      = runRulesAux rx (e.rules.getD (e.keys.indexOf (jsJoin "." (k1 :: krest))) [])
          { vm with
            root := root, arrayIndex := none, key := jsJoin "." (k1 :: krest),
            path := root ++ "." ++ jsJoin "." (k1 :: krest),
            value := jsGetPath vm.data
              (jsSplit (root ++ "." ++ jsJoin "." (k1 :: krest)) '.') } := by
    unfold errorCheckSegs
    simp only [List.headD_cons, hroot, hna]
    rw [if_neg (by simp)]
    rw [if_pos (by simp only [List.length_cons]; omega)]
    unfold checkSpecificKey_
    simp only [List.drop_succ_cons, List.drop_zero, hroot]
    rw [if_neg (Nat.ne_of_lt hidxlt)]
    rw [hgetd]
    rw [if_pos hk0]
    unfold runErrorCheckOnRules_
    simp only []
  refine ⟨?_, ?_⟩
  · intro vmS hseq
    have hrun := (runRules_seq rx _
      { vm with
        root := root, arrayIndex := none, key := jsJoin "." (k1 :: krest),
        path := root ++ "." ++ jsJoin "." (k1 :: krest),
        value := jsGetPath vm.data
          (jsSplit (root ++ "." ++ jsJoin "." (k1 :: krest)) '.') }
      vm.errors rfl hrules).1 vmS hseq
    simp only [] at hrun
    refine ⟨?_, fun hsafe => jsGetPath_setPath _ _ _ hsafe⟩
    rw [hstep]
    exact hrun
  · intro f vmS hseq
    have hrun := (runRules_seq rx _
      { vm with
        root := root, arrayIndex := none, key := jsJoin "." (k1 :: krest),
        path := root ++ "." ++ jsJoin "." (k1 :: krest),
        value := jsGetPath vm.data
          (jsSplit (root ++ "." ++ jsJoin "." (k1 :: krest)) '.') }
      vm.errors rfl hrules).2 f vmS hseq
    simp only [] at hrun
    refine ⟨?_, fun hsafe => jsGetPath_setPath _ _ _ hsafe⟩
    rw [hstep]
    exact hrun


/-- The state after registering `player.name` with rules `required`
and messages `['']` on an empty name (the list branch of
`getErrorMessage` performs no empty-string fallback, so the stored
message is the empty string). -/
def c1State : VM :=
  { data := .obj [("player", .obj [("name", .str "")])],
    errors := .obj [("player", .obj [("name", .str "")])],
    vars := [("player", ⟨[[("required", .arr [])]], false, ["name"]⟩)],
    errMsg := .obj [("player", .obj [("name", .obj [("required", .str "")])])],
    watching := [], value := .undef, path := "player.name", root := "player",
    key := "name", count := 1, isArr := false, arraySize := none,
    arrayIndex := none, messages := .list [""] }

/-- C1, counterexample.  After registering with messages `['']`, the
check of `player.name` reports one failing rule (count 1) yet leaves
the error leaf equal to the empty string, so `errors[path] == ''` does
not imply that every rule passes. -/
theorem c1_counterexample :
    registerErrorChecking "player.name" "required" (.list [""]) false none
      (initialVM (.obj [("player", .obj [("name", .str "")])])) = .ok () c1State ∧
    resVal (errorCheck rxTriv (some "player.name") c1State) = some 1 ∧
    jsGetPath (resVM (errorCheck rxTriv (some "player.name") c1State)).errors
      ["player", "name"] = .str "" := by
  refine ⟨by simp [c1State, initialVM], by simp [c1State], by simp [c1State]⟩

/-- A healthy scalar registration used to witness the amended claim
(`required` with a real message on an empty value). -/
def c1WitState : VM :=
  { data := .obj [("player", .obj [("name", .str "")])],
    errors := .obj [("player", .obj [("name", .str "")])],
    vars := [("player", ⟨[[("required", .arr [])]], false, ["name"]⟩)],
    errMsg := .obj [("player", .obj [("name", .obj [("required", .str "Required")])])],
    watching := [], value := .undef, path := "player.name", root := "player",
    key := "name", count := 1, isArr := false, arraySize := none,
    arrayIndex := none, messages := .str "Required" }

/-- The state the rule loop starts from when `player.name` is checked
on `c1WitState`. -/
def c1WitRun : VM :=
  { c1WitState with
    root := "player", arrayIndex := none, key := "name",
    path := "player" ++ "." ++ "name",
    value := jsGetPath c1WitState.data (jsSplit ("player" ++ "." ++ "name") '.') }

/-- C1, witness for the amended theorem: the failure conjunct at the
concrete state (the single `required` rule fails on the empty name, the
check returns 1 and writes the stored message, which reads back). -/
theorem c1_amended_witness :
    errorCheckSegs rxTriv ["player", "name"] c1WitState =
      .ok 1 { c1WitRun with errors := (jsSetPath c1WitState.errors
        (jsSplit ("player" ++ "." ++ "name") '.')
        (jsGetPath c1WitState.errMsg
          (jsSplit (("player" ++ "." ++ "name") ++ "." ++ "required") '.'))) } ∧
    (setPathSafe c1WitState.errors (jsSplit ("player" ++ "." ++ "name") '.') = true →
      jsGetPath (jsSetPath c1WitState.errors (jsSplit ("player" ++ "." ++ "name") '.')
          (jsGetPath c1WitState.errMsg
            (jsSplit (("player" ++ "." ++ "name") ++ "." ++ "required") '.')))
        (jsSplit ("player" ++ "." ++ "name") '.')
        = jsGetPath c1WitState.errMsg
            (jsSplit (("player" ++ "." ++ "name") ++ "." ++ "required") '.')) :=
  (c1_amended rxTriv c1WitState "player" "name" ["name"]
    ⟨[[("required", .arr [])]], false, ["name"]⟩
    (by simp [c1WitState]) (by simp) (by simp) (by simp) (by simp)
    (by simp) (by simp)).2 "required" c1WitRun (by simp [c1WitState, c1WitRun])

end LLVValidator
